import Mathlib

/-!
Shallow embedding of the date-windowed filtering and grid-fusion core of the
sio-postdoc repository.

Sources embedded here:
* `src/sio_postdoc/engine/filtering/strategies.py` — `NamesByDate.apply`,
  `IndicesByDate.apply`, `IndicesByDate._get_masks`.
* `src/sio_postdoc/manager/observation/service.py` — the per-cell fusion
  decision of `ObservationManager.merge_daily_masks` and the per-row walk of
  `ObservationManager.extract_daily_extents`.

Modelling conventions:
* Python `datetime` values are absolute Unix seconds (`Int`).  The local
  calendar date delivered by `datetime.fromtimestamp(..).date()` is a fixed
  translation of the absolute time; we take the translation to be zero
  (UTC-like, no DST), so a calendar day is the integer `t.fdiv 86400`.
* Machine numbers are `Int`; the fractional window means of
  `merge_daily_masks` are `ℚ`.  A pandas `NaN` mean (empty selection) is
  `Option.none`; every `NaN` comparison is `false`, matching Python.
* Fallible Python code (KeyError / TypeError on malformed records) is
  `Except String _` or `Option _`; returning Python `None` as a sentinel is
  `.ok none`, distinct from `.error`.
-/

/-- One value stored under a variable: either a scalar number or a (possibly
nested) sequence, mirroring the dynamically-typed `values` attribute. -/
inductive Val where
  | int : Int → Val
  | list : List Val → Val

/-- View a `Val` as a number, as `datetime.fromtimestamp` and
`timedelta(seconds=...)` require; a sequence gives `none` (Python
`TypeError`). -/
def Val.asIntQ : Val → Option Int
  | .int i => some i
  | .list _ => none

/-- View a `Val` as a sequence, as iteration and `zip` require; a scalar
gives `none` (Python `TypeError`). -/
def Val.asListQ : Val → Option (List Val)
  | .int _ => none
  | .list l => some l

/-- The `Dimensions` enumeration of `sio_postdoc.engine` (only the members
the filtering code inspects, plus a catch-all). -/
inductive DimName where
  | time
  | level
  | angle
  | other : String → DimName
deriving DecidableEq, Repr

/-- The `Dimension` contract: a named dimension with a size. -/
structure DimensionE where
  name : DimName
  size : Nat
deriving DecidableEq, Repr

/-- The `Units` enumeration of `sio_postdoc.engine` (only the members the
filtering code inspects, plus a catch-all). -/
inductive UnitsE where
  | seconds
  | meters
  | unitless
  | other : String → UnitsE
deriving DecidableEq, Repr

/-- The `Variable` contract: dimension list, metadata and values.  `dtype`,
`long_name` and `scale` are opaque to the filtering code and kept as
strings. -/
structure VariableE where
  dimensions : List DimensionE
  dtype : String
  long_name : String
  scale : String
  units : UnitsE
  values : Val

/-- The `InstrumentData` contract.  Python `dict`s preserve insertion order,
so both mappings are ordered association lists.  The field `vars` models the
Python attribute `variables` (`variable(s)` is reserved in Lean). -/
structure InstrumentData where
  dimensions : List (String × DimensionE)
  vars : List (String × VariableE)

instance : Inhabited InstrumentData := ⟨⟨[], []⟩⟩

/-- Seconds per calendar day. -/
def secondsPerDay : Int := 86400

/-- Calendar day of an absolute time, as `datetime.fromtimestamp(t).date()`
with the timezone translation normalised to zero. -/
def dateOf (t : Int) : Int := t.fdiv secondsPerDay

/-! ## `NamesByDate.apply` (strategies.py lines 30-60)

A directory entry is a blob name together with the timestamp
`utility.extract_datetime` parses from it.  `extract_datetime` fails on a
name it cannot parse, so every entry reaching the loop has a non-empty
name; the Python truthiness test `if not results and previous_entry` on the
`previous_entry : str = ""` sentinel therefore coincides with "a previous
entry has been seen", which we model with `Option`. -/

structure Entry where
  name : String
  ts : Int
deriving DecidableEq, Repr

/-- The scanning loop of `NamesByDate.apply`: `start`/`endT` bound the
target day, `prev` is `previous_entry`, `acc` is `results`.  Mirrors the
five-way branch on the entry's extracted datetime, including the early
`break`s and the trailing append when a timestamp beyond `endT` is seen
while `results` is non-empty. -/
def namesGo (start endT : Int) : List Entry → Option Entry → List Entry → List Entry
  | [], _, acc => acc
  | e :: rest, prev, acc =>
    if e.ts = start then
      namesGo start endT rest prev (acc ++ [e])
    else if start < e.ts ∧ e.ts < endT then
      namesGo start endT rest prev
        ((if acc = [] ∧ prev.isSome then acc ++ prev.toList else acc) ++ [e])
    else if e.ts = endT then
      acc
    else if endT < e.ts then
      (if acc = [] then acc else acc ++ [e])
    else
      namesGo start endT rest (some e) acc

/-- `NamesByDate.apply`: scan the entries for the day starting at `start`
(midnight of the target date), then return `tuple(sorted(results))` —
Python sorts the blob names as strings. -/
def NamesByDate.apply (start : Int) (content : List Entry) : List Entry :=
  (namesGo start (start + secondsPerDay) content none []).mergeSort
    (fun a b => a.name ≤ b.name)

/-! ## `IndicesByDate` (strategies.py lines 63-183) -/

/-- `IndicesByDate._get_masks`: for each record, mark the offsets whose
calendar day `datetime.fromtimestamp(epoch) + timedelta(seconds=offset)`
equals the target.  A record without a numeric `epoch` scalar or an
iterable of numeric `offset`s raises (KeyError / TypeError): `none`. -/
def IndicesByDate.getMasks (target : Int) :
    List InstrumentData → Option (List (List Bool))
  | [] => some []
  | data :: rest =>
    match (data.vars.lookup "epoch").bind (fun v => v.values.asIntQ) with
    | none => none
    | some ep =>
      match (data.vars.lookup "offset").bind (fun v => v.values.asListQ) with
      | none => none
      | some offs =>
        match offs.mapM Val.asIntQ with
        | none => none
        | some offsI =>
          match IndicesByDate.getMasks target rest with
          | none => none
          | some ms =>
              some ((offsI.map fun o => decide (dateOf (ep + o) = target)) :: ms)

/-- Read `var_values[n]`: a `defaultdict(list)` yields `[]` for a missing
key. -/
def vvGet (vv : List (String × Val)) (n : String) : Val :=
  (vv.lookup n).getD (.list [])

/-- Store a binding, replacing the first existing one. -/
def vvInsert (vv : List (String × Val)) (n : String) (v : Val) :
    List (String × Val) :=
  match vv with
  | [] => [(n, v)]
  | (k, w) :: rest => if k = n then (k, v) :: rest else (k, w) :: vvInsert rest n v

/-- `var_values[n] += new`: extending a scalar raises `TypeError`. -/
def vvAppend (vv : List (String × Val)) (n : String) (new : List Val) :
    Except String (List (String × Val)) :=
  match vvGet vv n with
  | .int _ => .error "TypeError: cannot extend a scalar"
  | .list xs => .ok (vvInsert vv n (.list (xs ++ new)))

/-- Boolean compress: `(value for flag, value in zip(mask, xs) if flag)`. -/
def maskFilter {α : Type} (mask : List Bool) (xs : List α) : List α :=
  ((mask.zip xs).filter fun p => p.1).map fun p => p.2

/-- The first `(mask, data)` pair whose mask has a `True` entry — the record
both non-time loops start from (the first loop `break`s right after it). -/
def firstMasked (masks : List (List Bool)) (content : List InstrumentData) :
    Option (List Bool × InstrumentData) :=
  (masks.zip content).find? fun p => p.1.any id

/-- A variable the first loop copies verbatim: dimensionless, or with a
non-`time` leading dimension. -/
def nonTimeVar (v : VariableE) : Bool :=
  match v.dimensions with
  | [] => true
  | d :: _ => d.name != DimName.time

/-- The first loop of `IndicesByDate.apply`: `var_values` after copying the
non-time-indexed variables of the first record with a `True` mask entry. -/
def firstNonTime (masks : List (List Bool)) (content : List InstrumentData) :
    List (String × Val) :=
  match firstMasked masks content with
  | none => []
  | some (_, data) =>
      data.vars.filterMap fun p =>
        if nonTimeVar p.2 then some (p.1, p.2.values) else none

/-- One variable of one record in the second (time-indexed) loop.  Seconds
variables are re-based to the epoch held in `var_values["epoch"]`; all other
time-indexed variables are compressed and concatenated unchanged. -/
def timeVarStep (data : InstrumentData) (mask : List Bool)
    (vv : List (String × Val)) (p : String × VariableE) :
    Except String (List (String × Val)) :=
  match p.2.dimensions with
  | [] => .ok vv
  | d :: _ =>
    if d.name != DimName.time then .ok vv
    else if p.2.units = UnitsE.seconds then
      match (data.vars.lookup "epoch").bind (fun v => v.values.asIntQ) with
      | none => .error "KeyError or TypeError: record epoch"
      | some ep =>
        match (vvGet vv "epoch").asIntQ with
        | none => .error "TypeError: var_values epoch is not a number"
        | some e1 =>
          match p.2.values.asListQ with
          | none => .error "TypeError: zip over a scalar"
          | some vals =>
            match (maskFilter mask vals).mapM Val.asIntQ with
            | none => .error "TypeError: timedelta of a non-number"
            | some offs => vvAppend vv p.1 (offs.map fun o => Val.int (ep + o - e1))
    else
      match p.2.values.asListQ with
      | none => .error "TypeError: zip over a scalar"
      | some vals => vvAppend vv p.1 (maskFilter mask vals)

/-- The inner loop over one record's variables in the second (time-indexed)
loop. -/
def varLoop (data : InstrumentData) (mask : List Bool) :
    List (String × VariableE) → List (String × Val) →
    Except String (List (String × Val))
  | [], vv => .ok vv
  | p :: rest, vv =>
    match timeVarStep data mask vv p with
    | .error e => .error e
    | .ok vv₁ => varLoop data mask rest vv₁

/-- One record in the second loop: skipped when its mask is all `False`. -/
def timeRecStep (vv : List (String × Val)) (p : List Bool × InstrumentData) :
    Except String (List (String × Val)) :=
  if p.1.any id = false then .ok vv
  else varLoop p.2 p.1 p.2.vars vv

/-- The second loop of `IndicesByDate.apply` over the `(mask, record)`
pairs. -/
def timeLoop : List (List Bool × InstrumentData) → List (String × Val) →
    Except String (List (String × Val))
  | [], vv => .ok vv
  | q :: rest, vv =>
    match timeRecStep vv q with
    | .error e => .error e
    | .ok vv₁ => timeLoop rest vv₁

/-- The second loop of `IndicesByDate.apply` over every `(mask, record)`
pair. -/
def timeIndexed (masks : List (List Bool)) (content : List InstrumentData)
    (vv0 : List (String × Val)) : Except String (List (String × Val)) :=
  timeLoop (masks.zip content) vv0

/-- Python `len`: a scalar raises `TypeError`. -/
def valLen : Val → Except String Nat
  | .int _ => .error "TypeError: len of a number"
  | .list l => .ok l.length

/-- `_get_data_dimensions`: walk the  LAST record's dimension names; `time`,
`level` and `angle` are synthesized, every other name is dropped. -/
def buildDataDims (vv : List (String × Val)) :
    List (String × DimensionE) → Except String (List (String × DimensionE))
  | [] => .ok []
  | (k, _) :: rest =>
    if k = "time" then do
      let n ← valLen (vvGet vv "offset")
      let r ← buildDataDims vv rest
      pure (("time", ⟨DimName.time, n⟩) :: r)
    else if k = "level" then do
      let n ← valLen (vvGet vv "range")
      let r ← buildDataDims vv rest
      pure (("level", ⟨DimName.level, n⟩) :: r)
    else if k = "angle" then do
      let r ← buildDataDims vv rest
      pure (("angle", ⟨DimName.angle, 4⟩) :: r)
    else buildDataDims vv rest

/-- Dimension-name keys a variable keeps, in source order. -/
def varDimNames (dims : List DimensionE) : List String :=
  dims.filterMap fun d =>
    match d.name with
    | .time => some "time"
    | .level => some "level"
    | .angle => some "angle"
    | .other _ => none

/-- Resolve each kept dimension name in `data_dims` (`data_dims[name]`
raises KeyError when the last record lacks the dimension). -/
def resolveDims (dataDims : List (String × DimensionE)) :
    List String → Except String (List DimensionE)
  | [] => .ok []
  | n :: rest =>
    match dataDims.lookup n with
    | none => .error "KeyError: data_dims"
    | some d => do
      let r ← resolveDims dataDims rest
      pure (d :: r)

/-- `_get_variable_dimensions`: rebuild each variable's dimension tuple from
the synthesized dimensions. -/
def buildVarDims (dataDims : List (String × DimensionE)) :
    List (String × VariableE) → Except String (List (String × List DimensionE))
  | [] => .ok []
  | p :: rest => do
    let ds ← resolveDims dataDims (varDimNames p.2.dimensions)
    let r ← buildVarDims dataDims rest
    pure ((p.1, ds) :: r)

/-- The final dictionary comprehension: one output variable per variable of
the LAST record, metadata copied from it, values taken from `var_values`. -/
def buildVariables (varDims : List (String × List DimensionE))
    (vv : List (String × Val)) :
    List (String × VariableE) → Except String (List (String × VariableE))
  | [] => .ok []
  | p :: rest =>
    match varDims.lookup p.1 with
    | none => .error "KeyError: var_dims"
    | some ds => do
      let r ← buildVariables varDims vv rest
      pure ((p.1,
        { dimensions := ds, dtype := p.2.dtype, long_name := p.2.long_name,
          scale := p.2.scale, units := p.2.units, values := vvGet vv p.1 }) :: r)

/-- `IndicesByDate.apply`.  Returns `.ok none` (Python `None`) when every
mask is all-`False`; `.error` models an uncaught Python exception.  After
the two loops the Python loop variable `data` still names the LAST record,
which therefore supplies the dimension keys and the variable metadata. -/
def IndicesByDate.apply (target : Int) (content : List InstrumentData) :
    Except String (Option InstrumentData) :=
  match IndicesByDate.getMasks target content with
  | none => .error "KeyError or TypeError in _get_masks"
  | some masks =>
    if masks.any (fun m => m.any id) = false then .ok none
    else
      match timeIndexed masks content (firstNonTime masks content) with
      | .error e => .error e
      | .ok vv =>
        match content.getLast? with
        | none => .error "unreachable: an all-False mask set was caught above"
        | some data =>
          match buildDataDims vv data.dimensions with
          | .error e => .error e
          | .ok dataDims =>
            match buildVarDims dataDims data.vars with
            | .error e => .error e
            | .ok varDims =>
              match buildVariables varDims vv data.vars with
              | .error e => .error e
              | .ok newVars => .ok (some ⟨dataDims, newVars⟩)

/-! ## `ObservationManager.merge_daily_masks` (service.py lines 875-1164)

For the SHEBA observatory the instrument dictionary is
`{"lidar": DABUL, "radar": MMCR}`, so every per-cell dictionary iterates
the lidar first and the radar second.  Each instrument's daily mask is the
pandas DataFrame `DataFrame(cloud_mask, index=offset, columns=range)`. -/

/-- A per-instrument daily cloud-mask DataFrame: time offsets as the row
index, elevations as the column index, and the rectangular grid of cell
codes. -/
structure DF where
  index : List Int
  columns : List Int
  values : List (List Int)

/-- The `Instrument` members the fusion decision matches on
(`AHSRL | DABUL | MPL` are the lidar-class arms, `MMCR` the radar arm). -/
inductive Instrument where
  | ahsrl
  | dabul
  | mpl
  | mmcr
deriving DecidableEq, Repr

/-- Choose the lidar-class or the radar-class alternative of a `match` over
the four instrument constructors. -/
def lidarRadar {α : Type} (i : Instrument) (lidarV radarV : α) : α :=
  match i with
  | .ahsrl => lidarV
  | .dabul => lidarV
  | .mpl => lidarV
  | .mmcr => radarV

/-- Modelled from the spec: `DType.I1.min`, the reserved sentinel/flag code
meaning "no valid measurement" (`DType` lives outside the provided sources;
`I1` is an 8-bit signed integer, whose minimum is -128). -/
def flagValue : Int := -128

/-- `OFFSETS["time"]`. -/
def timeOffset : Int := 15

/-- `OFFSETS["elevation"]`. -/
def elevOffset : Int := 45

/-- `MIN_ELEVATION`. -/
def minElevation : Int := 500

/-- `time - OFFSETS["time"] <= df.index` and-ed with
`df.index < time + OFFSETS["time"]`. -/
def timeSelMask (t : Int) (idx : List Int) : List Bool :=
  idx.map fun x => decide (t - timeOffset ≤ x) && decide (x < t + timeOffset)

/-- `elevation - OFFSETS["elevation"] <= df.columns` and-ed with
`df.columns < elevation + OFFSETS["elevation"]`. -/
def elevSelMask (e : Int) (cols : List Int) : List Bool :=
  cols.map fun x => decide (e - elevOffset ≤ x) && decide (x < e + elevOffset)

/-- `values[inst] = df.iloc[selected_times[inst], selected_elevations[inst]]`:
the selected rows, each restricted to the selected columns. -/
def windowOf (t e : Int) (df : DF) : List (List Int) :=
  (maskFilter (timeSelMask t df.index) df.values).map
    (maskFilter (elevSelMask e df.columns))

/-- All cells of a selected window. -/
def winCells (w : List (List Int)) : List Int := w.flatten

/-- `df.size` of a selected window. -/
def winSize (w : List (List Int)) : Nat := (winCells w).length

/-- `DType.I1.min in df.values`. -/
def hasFlag (w : List (List Int)) : Bool := (winCells w).contains flagValue

/-- `df.mean().mean()` of a selection: pandas takes the mean of the
per-column means, which on the rectangular selections produced by
`windowOf` equals the mean over all cells; an empty selection yields `NaN`,
modelled as `none` (every comparison against it is `false`). -/
def winMean (w : List (List Int)) : Option ℚ :=
  if winSize w = 0 then none
  else some (((winCells w).sum : ℚ) / (winSize w : ℚ))

/-- `df.replace(DType.I1.min, 0)`. -/
def replaceFlag (w : List (List Int)) : List (List Int) :=
  w.map fun row => row.map fun c => if c = flagValue then 0 else c

/-- `ONE_HALF <= df.mean().mean()`, computed on the exact fraction by
cross-multiplication: for a non-empty selection of `n` cells summing to
`s`, `1/2 ≤ s/n ↔ n ≤ 2·s`; the `NaN` mean of an empty selection makes
the comparison `false`.  `geHalfB_iff_winMean` below ties this to
`winMean`. -/
def geHalfB (w : List (List Int)) : Bool :=
  decide (winSize w ≠ 0) && decide ((winSize w : Int) ≤ 2 * (winCells w).sum)

/-- `df.mean().mean() < ONE_HALF` by the same cross-multiplication;
`false` on an empty selection (`NaN`). -/
def ltHalfB (w : List (List Int)) : Bool :=
  decide (winSize w ≠ 0) && decide (2 * (winCells w).sum < (winSize w : Int))

/-- The seven order-dependent guards of the per-cell decision, in source
order: missing-all, all-flagged, at-least-one-empty, at-least-one-flagged,
all-means-cloudy, some-mean-cloudy, all-means-clear. -/
inductive FusionBranch where
  | missingAll
  | allFlagged
  | someEmpty
  | someFlagged
  | bothCloud
  | oneCloud
  | bothClear
deriving DecidableEq, Repr

/-- Which `if/elif` arm of the per-cell decision fires, mirroring the
source's guard order and guard expressions exactly. -/
def fusionBranch (wins : List (Instrument × List (List Int))) : FusionBranch :=
  if wins.all fun p => winSize p.2 == 0 then .missingAll
  else if wins.all fun p => hasFlag p.2 then .allFlagged
  else if !(wins.all fun p => winSize p.2 != 0) then .someEmpty
  else if wins.any fun p => hasFlag p.2 then .someFlagged
  else if wins.all fun p => geHalfB p.2 then .bothCloud
  else if wins.any fun p => geHalfB p.2 then .oneCloud
  else .bothClear

/-- The fall-through tail of the cell: `CLOUD if any(0.5 <= mean) else
NO_CLOUD` over the raw window means. -/
def finalResolve (wins : List (Instrument × List (List Int)))
    (pair : Int × Int) : Int :=
  if wins.any fun p => geHalfB p.2 then pair.1 else pair.2

/-- The per-cell fusion decision on the already-selected windows.  A Python
`for`-loop that finds no matching instrument leaves `mask[i][j]` at its
initial `0` (branches `allFlagged` and `oneCloud`) or leaves
`CLOUD`/`NO_CLOUD` at their initial `DType.I1.min` (branches `someEmpty`
and `someFlagged`); those `none` arms are unreachable under the guards. -/
def cellDecision (wins : List (Instrument × List (List Int))) : Int :=
  match fusionBranch wins with
  | .missingAll => -6
  | .allFlagged =>
    if !(wins.any fun p => geHalfB (replaceFlag p.2)) then 0
    else
      match wins.find? fun p => geHalfB (replaceFlag p.2) with
      | some p => lidarRadar p.1 1 2
      | none => 0
  | .someEmpty =>
    finalResolve wins
      (match wins.find? fun p => winSize p.2 == 0 with
       | some p => lidarRadar p.1 (4, -4) (5, -5)
       | none => (flagValue, flagValue))
  | .someFlagged =>
    finalResolve wins
      (match wins.find? fun p => hasFlag p.2 with
       | some p => lidarRadar p.1 (2, -2) (1, -1)
       | none => (flagValue, flagValue))
  | .bothCloud => 3
  | .oneCloud =>
    match wins.find? fun p => ltHalfB p.2 with
    | some p => lidarRadar p.1 2 1
    | none => 0
  | .bothClear => -3

/-- The ordered per-cell instrument windows for the SHEBA pair: the lidar
(`DABUL`) is inserted before the radar (`MMCR`). -/
def shebaWins (dfL dfR : DF) (t e : Int) :
    List (Instrument × List (List Int)) :=
  [(Instrument.dabul, windowOf t e dfL), (Instrument.mmcr, windowOf t e dfR)]

/-- `times = list(range(0, SECONDS_PER_DAY + 1, STEPS["time"]))` with
`SECONDS_PER_DAY = 86400` (the constant lives outside the provided sources;
the spec fixes a 30 s step spanning a full day). -/
def mergeTimes : List Int := (List.range 2881).map fun k => 30 * Int.ofNat k

/-- `elevations = list(range(0, max_elevation + 1, STEPS["elevation"]))`. -/
def mergeElevations (maxE : Int) : List Int :=
  if maxE < 0 then []
  else (List.range (maxE.toNat / 90 + 1)).map fun k => 90 * Int.ofNat k

/-- `merge_daily_masks` grid construction: `max_elevation` is the smaller
of the two column maxima (pandas `Index.max()` on an empty index is `NaN`
and poisons `range`: `none`); a cell below `MIN_ELEVATION` is skipped by
`continue` and keeps its initial `0`. -/
def mergeDailyMasks (dfL dfR : DF) : Option (List (List Int)) :=
  match dfL.columns.max?, dfR.columns.max? with
  | some mL, some mR =>
    some (mergeTimes.map fun t =>
      (mergeElevations (min mL mR)).map fun e =>
        if e < minElevation then 0 else cellDecision (shebaWins dfL dfR t e))
  | _, _ => none

/-- The elevation axis of the fused grid, for stating per-column facts. -/
def mergeElevs (dfL dfR : DF) : Option (List Int) :=
  match dfL.columns.max?, dfR.columns.max? with
  | some mL, some mR => some (mergeElevations (min mL mR))
  | _, _ => none

/-- The closed enumeration of fused-grid cell codes documented by the
spec. -/
def codeSet : List Int := [-6, -5, -4, -3, -2, -1, 0, 1, 2, 3, 4, 5]

/-! ## `ObservationManager.extract_daily_extents` (service.py lines 1166-1277)

The per-row walk over a fused grid's elevation columns. -/

/-- One base/top transition: the stored elevation and the
`MaskCode(bottom=…, top=…)` pair. -/
structure VerticalTransition where
  elevation : Int
  bottom : Int
  top : Int
deriving DecidableEq, Repr

/-- `VERTICAL_RAIL`: the out-of-range seed of the walk. -/
def verticalRail : Int := -10

/-- The pairwise walk over `(elevation, current, above)` triples (the
columns except the last).  Below `MIN_ELEVATION` the row is skipped and
`below` keeps its value.  Returns the final `below` together with the
accumulated `bases` and `tops`. -/
def extractWalk (below : Int) :
    List (Int × Int × Int) → Int × List VerticalTransition × List VerticalTransition
  | [] => (below, [], [])
  | (e, cur, ab) :: rest =>
    if e < minElevation then extractWalk below rest
    else
      let r := extractWalk cur rest
      (r.1,
       (if below ≤ 0 ∧ 0 < cur then [⟨e - elevOffset, below, cur⟩] else []) ++ r.2.1,
       (if ab ≤ 0 ∧ 0 < cur then [⟨e + elevOffset, cur, ab⟩] else []) ++ r.2.2)

/-- One time row of `extract_daily_extents`: the walk over
`columns[:-1]` followed by the explicit boundary check of the top-most
column, which reuses the leaked loop variables `j` (so `j + 1` is the last
column) and `elevation` (the second-to-last column).  Fewer than two
columns leaves `j` unbound (Python `NameError`), and a row shorter than the
column axis is out of `iloc` range: `none`. -/
def extractRow (elevs row : List Int) :
    Option (List VerticalTransition × List VerticalTransition) :=
  if elevs.length < 2 ∨ row.length ≠ elevs.length then none
  else
    let w := extractWalk verticalRail (elevs.zip (row.zip row.tail))
    let elevation := elevs.getD (elevs.length - 2) 0
    let current := row.getD (row.length - 1) 0
    some
      (if 0 < current ∧ w.1 ≤ 0 then
          w.2.1 ++ [⟨elevation - elevOffset, w.1, current⟩]
        else w.2.1,
       if 0 < current then
          w.2.2 ++ [⟨elevation + elevOffset, current, verticalRail⟩]
        else w.2.2)

/-! ## Spec-side definitions and concrete scenario inputs

The definitions in this section follow the spec's wording; they are the
comparison side of the refinement-style claims, not translations of the
source. -/

/-- Absolute sample times of a record: `epoch + offset[i]`. -/
def recTimes (d : InstrumentData) : Option (List Int) :=
  match (d.vars.lookup "epoch").bind (fun v => v.values.asIntQ) with
  | none => none
  | some ep =>
    match (d.vars.lookup "offset").bind (fun v => v.values.asListQ) with
    | none => none
    | some offs =>
      match offs.mapM Val.asIntQ with
      | none => none
      | some oi => some (oi.map (ep + ·))

/-- The absolute sample times of a record whose calendar date is the
target day. -/
def daySamplesOf (d : InstrumentData) (target : Int) : Option (List Int) :=
  match recTimes d with
  | none => none
  | some ts => some (ts.filter fun t => decide (dateOf t = target))

/-- The day record produced by `IndicesByDate.apply`, when it neither
raised nor signalled "no data". -/
def applyOut (r : Except String (Option InstrumentData)) :
    Option InstrumentData :=
  match r with
  | .ok (some d) => some d
  | _ => none

/-- The output values stored under one variable name of the day record. -/
def outValuesOf (r : Except String (Option InstrumentData)) (n : String) :
    Option Val :=
  match applyOut r with
  | none => none
  | some d => (d.vars.lookup n).map fun v => v.values

/-- Following the spec's words: the plain mask-compressed concatenation of
a variable's values over the records with a `True` mask entry, in record
order, with no rebasing. -/
def plainConcat (pairs : List (List Bool × InstrumentData)) (n : String) :
    List Val :=
  ((pairs.filter fun p => p.1.any id).map fun p =>
    match (p.2.vars.lookup n).bind (fun v => v.values.asListQ) with
    | some vals => maskFilter p.1 vals
    | none => []).flatten

/-- Following the spec's words, on the masks `_get_masks` computes for the
target day. -/
def specConcat (target : Int) (content : List InstrumentData) (n : String) :
    List Val :=
  match IndicesByDate.getMasks target content with
  | none => []
  | some masks => plainConcat (masks.zip content) n

/-- Following the claim's words: every instrument's window is non-empty and
contains only flagged/sentinel values. -/
def onlyFlagWindows (wins : List (Instrument × List (List Int))) : Bool :=
  wins.all fun p => !(winCells p.2).isEmpty && (winCells p.2).all (· == flagValue)

/-- First synthetic seam file: epoch at 23:50:00 of day 0 (Unix second
85800), 62 offsets at a 10 s step covering 23:50:00-23:59:50 of day 0 and
00:00:00-00:00:10 of day 1. -/
def c1Rec1 : InstrumentData :=
  { dimensions := [("time", ⟨DimName.time, 62⟩)],
    vars := [
      ("epoch",
        { dimensions := [], dtype := "i4", long_name := "Unix Epoch",
          scale := "1", units := UnitsE.seconds, values := Val.int 85800 }),
      ("offset",
        { dimensions := [⟨DimName.time, 62⟩], dtype := "i4",
          long_name := "seconds since epoch", scale := "1",
          units := UnitsE.seconds,
          values := Val.list ((List.range 62).map fun k => Val.int (10 * Int.ofNat k)) })] }

/-- Second synthetic seam file: epoch at 00:00:10 of day 1 (Unix second
86410), 60 offsets at a 10 s step covering 00:00:10-00:10:00 of day 1. -/
def c1Rec2 : InstrumentData :=
  { dimensions := [("time", ⟨DimName.time, 60⟩)],
    vars := [
      ("epoch",
        { dimensions := [], dtype := "i4", long_name := "Unix Epoch",
          scale := "1", units := UnitsE.seconds, values := Val.int 86410 }),
      ("offset",
        { dimensions := [⟨DimName.time, 60⟩], dtype := "i4",
          long_name := "seconds since epoch", scale := "1",
          units := UnitsE.seconds,
          values := Val.list ((List.range 60).map fun k => Val.int (10 * Int.ofNat k)) })] }

/-- The absolute sample times the merged day-1 record actually carries:
00:00:00 and 00:00:10 from the first file, then 00:00:10 through 00:10:00
from the second — the seam sample 86410 appears twice. -/
def c1Expected : List Int :=
  86400 :: 86410 :: ((List.range 60).map fun k => 86410 + 10 * Int.ofNat k)

/-- A record whose only sample lies on day 0, used against target day 3. -/
def c4Rec : InstrumentData :=
  { dimensions := [("time", ⟨DimName.time, 1⟩)],
    vars := [
      ("epoch",
        { dimensions := [], dtype := "i4", long_name := "Unix Epoch",
          scale := "1", units := UnitsE.seconds, values := Val.int 0 }),
      ("offset",
        { dimensions := [⟨DimName.time, 1⟩], dtype := "i4",
          long_name := "seconds since epoch", scale := "1",
          units := UnitsE.seconds, values := Val.list [Val.int 5] })] }

/-- First same-epoch record for the rebase witness: epoch 0, one day-0
sample. -/
def c5RecA : InstrumentData :=
  { dimensions := [("time", ⟨DimName.time, 1⟩)],
    vars := [
      ("epoch",
        { dimensions := [], dtype := "i4", long_name := "Unix Epoch",
          scale := "1", units := UnitsE.seconds, values := Val.int 0 }),
      ("offset",
        { dimensions := [⟨DimName.time, 1⟩], dtype := "i4",
          long_name := "seconds since epoch", scale := "1",
          units := UnitsE.seconds, values := Val.list [Val.int 5] })] }

/-- Second same-epoch record for the rebase witness: epoch 0, one day-0
sample at a later offset. -/
def c5RecB : InstrumentData :=
  { dimensions := [("time", ⟨DimName.time, 1⟩)],
    vars := [
      ("epoch",
        { dimensions := [], dtype := "i4", long_name := "Unix Epoch",
          scale := "1", units := UnitsE.seconds, values := Val.int 0 }),
      ("offset",
        { dimensions := [⟨DimName.time, 1⟩], dtype := "i4",
          long_name := "seconds since epoch", scale := "1",
          units := UnitsE.seconds, values := Val.list [Val.int 7] })] }

/-- Earlier record carrying an extra variable `foo`; its mask for day 0 is
`[true]`. -/
def c10RecA : InstrumentData :=
  { dimensions := [("time", ⟨DimName.time, 1⟩)],
    vars := [
      ("epoch",
        { dimensions := [], dtype := "i4", long_name := "Unix Epoch A",
          scale := "1", units := UnitsE.seconds, values := Val.int 0 }),
      ("offset",
        { dimensions := [⟨DimName.time, 1⟩], dtype := "i4",
          long_name := "A offset", scale := "1",
          units := UnitsE.seconds, values := Val.list [Val.int 10] }),
      ("foo",
        { dimensions := [⟨DimName.time, 1⟩], dtype := "f4",
          long_name := "only in A", scale := "1",
          units := UnitsE.other "K", values := Val.list [Val.int 42] })] }

/-- Last record without `foo` and with different metadata; its mask for
day 0 is `[false]` (its sample lies on day 2). -/
def c10RecB : InstrumentData :=
  { dimensions := [("time", ⟨DimName.time, 1⟩)],
    vars := [
      ("epoch",
        { dimensions := [], dtype := "i4", long_name := "Unix Epoch B",
          scale := "1", units := UnitsE.seconds, values := Val.int 172800 }),
      ("offset",
        { dimensions := [⟨DimName.time, 1⟩], dtype := "i8",
          long_name := "B offset", scale := "2",
          units := UnitsE.seconds, values := Val.list [Val.int 0] })] }

/-- Lidar daily mask whose only column, at 540 m, sees five samples
`1, 1, 1, 1, 0` (window mean 0.8, no flags) near 00:00:00. -/
def c8DfL : DF := ⟨[0, 2, 4, 6, 8], [540], [[1], [1], [1], [1], [0]]⟩

/-- Radar daily mask whose only sample near 00:00:00 at 540 m is the flag
value. -/
def c8DfR : DF := ⟨[0], [540], [[-128]]⟩

/-- Lidar mask whose 540 m window near 00:00:00 holds one flag and one
genuine cloud sample — flagged, but not all-flagged. -/
def c7DfL : DF := ⟨[0, 2], [540], [[-128], [1]]⟩

/-- Radar mask whose 540 m window near 00:00:00 is entirely flagged. -/
def c7DfR : DF := ⟨[0], [540], [[-128]]⟩

/-- Single-column DataFrames for the grid-shaped witnesses: one column at
0 m with no samples. -/
def c6Df : DF := ⟨[], [0], []⟩

/-- The day record `IndicesByDate.apply` builds from the two same-epoch
records, extracted for the rebase witness. -/
def c5OutD : InstrumentData :=
  (applyOut (IndicesByDate.apply 0 [c5RecA, c5RecB])).getD ⟨[], []⟩

/-- The `offset` variable of that day record. -/
def c5OutVar : VariableE :=
  (c5OutD.vars.lookup "offset").getD
    ⟨[], "", "", "", UnitsE.unitless, Val.list []⟩

/-- The day record built from `c10RecA` then `c10RecB`, extracted for the
last-record-metadata witness. -/
def c10OutD : InstrumentData :=
  (applyOut (IndicesByDate.apply 0 [c10RecA, c10RecB])).getD ⟨[], []⟩

/-! ## Lemmas about the `NamesByDate` scan -/

theorem namesGo_count_bounds (start endT : Int) (hlt : start < endT) :
    ∀ (l : List Entry) (prev : Option Entry) (acc : List Entry),
      (∀ p, prev = some p → p.ts < start) →
      (namesGo start endT l prev acc).countP (fun e => decide (e.ts = endT)) =
        acc.countP (fun e => decide (e.ts = endT))
      ∧ (namesGo start endT l prev acc).countP (fun e => decide (e.ts < start)) ≤
        acc.countP (fun e => decide (e.ts < start)) + (if acc = [] then 1 else 0)
      ∧ (namesGo start endT l prev acc).countP (fun e => decide (endT < e.ts)) ≤
        acc.countP (fun e => decide (endT < e.ts)) + 1 := by
  intro l
  induction l with
  | nil =>
    intro prev acc _
    refine ⟨rfl, ?_, ?_⟩
    · simp only [namesGo]
      split <;> omega
    · simp only [namesGo]
      omega
  | cons e rest ih =>
    intro prev acc hp
    simp only [namesGo]
    by_cases h1 : e.ts = start
    · rw [if_pos h1]
      have he1 : (decide (e.ts = endT)) = false := by
        simp only [decide_eq_false_iff_not]
        omega
      have he2 : (decide (e.ts < start)) = false := by
        simp only [decide_eq_false_iff_not]
        omega
      have he3 : (decide (endT < e.ts)) = false := by
        simp only [decide_eq_false_iff_not]
        omega
      have happ : acc ++ [e] ≠ [] := by simp
      obtain ⟨ha, hb, hc⟩ := ih prev (acc ++ [e]) hp
      refine ⟨?_, ?_, ?_⟩
      · rw [ha]
        simp [List.countP_append, List.countP_cons, he1]
      · refine le_trans hb ?_
        have hcnt : (acc ++ [e]).countP (fun e => decide (e.ts < start)) =
            acc.countP (fun e => decide (e.ts < start)) := by
          simp [List.countP_append, List.countP_cons, he2]
        rw [hcnt, if_neg happ]
        split <;> omega
      · refine le_trans hc ?_
        simp [List.countP_append, List.countP_cons, he3]
    · rw [if_neg h1]
      by_cases h2 : start < e.ts ∧ e.ts < endT
      · rw [if_pos h2]
        have he1 : (decide (e.ts = endT)) = false := by
          simp only [decide_eq_false_iff_not]
          omega
        have he2 : (decide (e.ts < start)) = false := by
          simp only [decide_eq_false_iff_not]
          omega
        have he3 : (decide (endT < e.ts)) = false := by
          simp only [decide_eq_false_iff_not]
          omega
        obtain ⟨ha, hb, hc⟩ :=
          ih prev ((if acc = [] ∧ prev.isSome then acc ++ prev.toList else acc) ++ [e]) hp
        have happ : (if acc = [] ∧ prev.isSome then acc ++ prev.toList else acc) ++ [e] ≠ [] := by
          simp
        refine ⟨?_, ?_, ?_⟩
        · rw [ha]
          split
          · rename_i hcase
            obtain ⟨hacc, hsome⟩ := hcase
            obtain ⟨p, hpeq⟩ := Option.isSome_iff_exists.mp hsome
            subst hacc hpeq
            have hp1 : (decide (p.ts = endT)) = false := by
              have := hp p rfl
              simp only [decide_eq_false_iff_not]
              omega
            simp [List.countP_append, List.countP_cons, he1, hp1]
          · simp [List.countP_append, List.countP_cons, he1]
        · refine le_trans hb ?_
          rw [if_neg happ]
          split
          · rename_i hcase
            obtain ⟨hacc, hsome⟩ := hcase
            obtain ⟨p, hpeq⟩ := Option.isSome_iff_exists.mp hsome
            subst hacc hpeq
            have hp1 : (decide (p.ts < start)) = true := by
              have := hp p rfl
              simpa using this
            simp [List.countP_append, List.countP_cons, he2, hp1]
          · have hcnt : (acc ++ [e]).countP (fun e => decide (e.ts < start)) =
                acc.countP (fun e => decide (e.ts < start)) := by
              simp [List.countP_append, List.countP_cons, he2]
            rw [hcnt]
            split <;> omega
        · refine le_trans hc ?_
          split
          · rename_i hcase
            obtain ⟨hacc, hsome⟩ := hcase
            obtain ⟨p, hpeq⟩ := Option.isSome_iff_exists.mp hsome
            subst hacc hpeq
            have hp1 : (decide (endT < p.ts)) = false := by
              have := hp p rfl
              simp only [decide_eq_false_iff_not]
              omega
            simp [List.countP_append, List.countP_cons, he3, hp1]
          · simp [List.countP_append, List.countP_cons, he3]
      · rw [if_neg h2]
        by_cases h3 : e.ts = endT
        · rw [if_pos h3]
          refine ⟨rfl, ?_, ?_⟩
          · split <;> omega
          · omega
        · rw [if_neg h3]
          by_cases h4 : endT < e.ts
          · rw [if_pos h4]
            by_cases hacc : acc = []
            · rw [if_pos hacc]
              refine ⟨rfl, ?_, ?_⟩
              · split <;> omega
              · omega
            · rw [if_neg hacc]
              have he1 : (decide (e.ts = endT)) = false := by
                simp only [decide_eq_false_iff_not]
                omega
              have he2 : (decide (e.ts < start)) = false := by
                simp only [decide_eq_false_iff_not]
                omega
              refine ⟨?_, ?_, ?_⟩
              · simp [List.countP_append, List.countP_cons, he1]
              · simp only [List.countP_append, List.countP_cons, he2, if_neg hacc]
                simp
              · simp [List.countP_append, List.countP_cons, h4]
          · rw [if_neg h4]
            have hlt2 : e.ts < start := by omega
            exact ih (some e) acc (by intro p hpeq; cases hpeq; exact hlt2)

/-- C2 counterexample: with the sorted entries `("a", day-start)` and
`("b", day-end + 10 s)`, `NamesByDate.apply` returns the second entry even
though its timestamp is strictly beyond the end of the day — the scan
appends the first entry past `day_end` whenever the result is already
non-empty, so the claim "no returned entry has ts > day_end" is false. -/
theorem c2_counterexample :
    (⟨"b", 86410⟩ : Entry) ∈ NamesByDate.apply 0 [⟨"a", 0⟩, ⟨"b", 86410⟩]
    ∧ (0 : Int) + secondsPerDay < (86410 : Int) := by
  constructor
  · rw [NamesByDate.apply, List.mem_mergeSort]
    decide
  · decide

/-- C2 (amended): for every target day and every entry sequence, the
name-based window selection returns no entry with `ts = day_end`, at most
one entry with `ts < day_start` (the boundary carry-over), and at most one
entry with `ts > day_end` (the first entry past the window, appended when
the result is already non-empty); every other returned entry therefore
satisfies `day_start ≤ ts < day_end`. -/
theorem c2_window_bounds (start : Int) (content : List Entry) :
    (NamesByDate.apply start content).countP
      (fun e => decide (e.ts = start + secondsPerDay)) = 0
    ∧ (NamesByDate.apply start content).countP
      (fun e => decide (e.ts < start)) ≤ 1
    ∧ (NamesByDate.apply start content).countP
      (fun e => decide (start + secondsPerDay < e.ts)) ≤ 1 := by
  have hlt : start < start + secondsPerDay := by
    simp only [secondsPerDay]
    omega
  obtain ⟨ha, hb, hc⟩ :=
    namesGo_count_bounds start (start + secondsPerDay) hlt content none []
      (by intro p hp; cases hp)
  have hperm := List.mergeSort_perm
    (namesGo start (start + secondsPerDay) content none []) (fun a b => a.name ≤ b.name)
  refine ⟨?_, ?_, ?_⟩
  · rw [NamesByDate.apply, hperm.countP_eq]
    simpa using ha
  · rw [NamesByDate.apply, hperm.countP_eq]
    simpa using hb
  · rw [NamesByDate.apply, hperm.countP_eq]
    simpa using hc

theorem namesGo_skip_prefix (start endT : Int) (hlt : start < endT) :
    ∀ (A l : List Entry) (prev : Option Entry) (acc : List Entry),
      (∀ e ∈ A, e.ts < start) →
      namesGo start endT (A ++ l) prev acc =
        namesGo start endT l (A.getLast?.or prev) acc := by
  intro A
  induction A with
  | nil => intro l prev acc _; simp
  | cons a A ih =>
    intro l prev acc hA
    have ha : a.ts < start := hA a (List.mem_cons_self a A)
    have h1 : ¬ a.ts = start := by omega
    have h2 : ¬ (start < a.ts ∧ a.ts < endT) := by omega
    have h3 : ¬ a.ts = endT := by omega
    have h4 : ¬ endT < a.ts := by omega
    have hstep : namesGo start endT ((a :: A) ++ l) prev acc =
        namesGo start endT (A ++ l) (some a) acc := by
      simp only [List.cons_append, namesGo, if_neg h1, if_neg h2, if_neg h3, if_neg h4]
      rfl
    rw [hstep, ih l (some a) acc (fun e he => hA e (List.mem_cons_of_mem a he))]
    have hor : A.getLast?.or (some a) = (a :: A).getLast?.or prev := by
      cases A with
      | nil => simp
      | cons b B =>
        rw [List.getLast?_cons_cons]
        have hs : (b :: B).getLast?.isSome := by
          rw [List.getLast?_isSome]
          simp
        rw [Option.or_of_isSome hs, Option.or_of_isSome hs]
    rw [hor]

theorem namesGo_inwindow_cons (start endT : Int) (e : Entry)
    (he : start < e.ts ∧ e.ts < endT) (l : List Entry) (prev : Option Entry)
    (acc : List Entry) :
    namesGo start endT (e :: l) prev acc =
      namesGo start endT l prev
        ((if acc = [] ∧ prev.isSome then acc ++ prev.toList else acc) ++ [e]) := by
  have h1 : ¬ e.ts = start := by omega
  simp only [namesGo, if_neg h1, if_pos he]

theorem namesGo_inwindow_append (start endT : Int) :
    ∀ (C l : List Entry) (prev : Option Entry) (acc : List Entry),
      (∀ e ∈ C, start < e.ts ∧ e.ts < endT) → acc ≠ [] →
      namesGo start endT (C ++ l) prev acc = namesGo start endT l prev (acc ++ C) := by
  intro C
  induction C with
  | nil => intro l prev acc _ _; simp
  | cons c C ih =>
    intro l prev acc hC hacc
    rw [List.cons_append,
      namesGo_inwindow_cons start endT c (hC c (List.mem_cons_self c C)) _ prev acc,
      if_neg (by simp [hacc]),
      ih l prev (acc ++ [c]) (fun e he => hC e (List.mem_cons_of_mem c he)) (by simp)]
    simp

theorem namesGo_tail_after_end (start endT : Int) (hlt : start < endT)
    (rest : List Entry) (prev : Option Entry) (acc : List Entry)
    (hrest : ∀ e ∈ rest, endT ≤ e.ts) :
    namesGo start endT rest prev acc = acc
    ∨ ∃ r ∈ rest, namesGo start endT rest prev acc = acc ++ [r] := by
  cases rest with
  | nil => left; rfl
  | cons r rest =>
    have hr : endT ≤ r.ts := hrest r (List.mem_cons_self r rest)
    have h1 : ¬ r.ts = start := by omega
    have h2 : ¬ (start < r.ts ∧ r.ts < endT) := by omega
    by_cases h3 : r.ts = endT
    · left
      simp only [namesGo, if_neg h1, if_neg h2, if_pos h3]
    · have h4 : endT < r.ts := by omega
      by_cases hacc : acc = []
      · left
        simp only [namesGo, if_neg h1, if_neg h2, if_neg h3, if_pos h4, if_pos hacc]
      · right
        exact ⟨r, List.mem_cons_self r rest,
          by simp only [namesGo, if_neg h1, if_neg h2, if_neg h3, if_pos h4, if_neg hacc]⟩

theorem namesGo_none_inwindow (start endT : Int) (hlt : start < endT) :
    ∀ (l : List Entry) (prev : Option Entry),
      (∀ e ∈ l, e.ts < start ∨ endT ≤ e.ts) →
      namesGo start endT l prev [] = [] := by
  intro l
  induction l with
  | nil => intro prev _; rfl
  | cons e rest ih =>
    intro prev hl
    have he : e.ts < start ∨ endT ≤ e.ts := hl e (List.mem_cons_self e rest)
    have h1 : ¬ e.ts = start := by omega
    have h2 : ¬ (start < e.ts ∧ e.ts < endT) := by omega
    by_cases h3 : e.ts = endT
    · simp only [namesGo, if_neg h1, if_neg h2, if_pos h3]
    · by_cases h4 : endT < e.ts
      · simp [namesGo, if_neg h1, if_neg h2, if_neg h3, if_pos h4]
      · have h5 : e.ts < start := by omega
        simp only [namesGo, if_neg h1, if_neg h2, if_neg h3, if_neg h4]
        exact ih (some e) (fun x hx => hl x (List.mem_cons_of_mem e hx))

/-- C3: the boundary carry-over of `NamesByDate.apply` is included exactly
when the first in-window entry lies strictly after the day start and a
preceding entry exists.  Part one: for a sorted sequence `A ++ [p] ++ C ++
rest` whose pre-window prefix ends in `p`, whose in-window entries `C` are
non-empty and all strictly inside the day, and whose tail is at or past
day end, the immediately preceding entry `p` is returned.  Part two: when
an entry `b` sits exactly on the day start, no pre-window entry is
returned at all.  Part three: when no entry's timestamp lies in
`[day_start, day_end)` the selection is empty, even when a preceding
out-of-window entry exists. -/
theorem c3_carry_over_policy :
    (∀ (start : Int) (A : List Entry) (p : Entry) (C rest : List Entry),
      (∀ e ∈ A, e.ts < start) → p.ts < start → C ≠ [] →
      (∀ e ∈ C, start < e.ts ∧ e.ts < start + secondsPerDay) →
      (∀ e ∈ rest, start + secondsPerDay ≤ e.ts) →
      p ∈ NamesByDate.apply start (A ++ [p] ++ C ++ rest))
    ∧ (∀ (start : Int) (A : List Entry) (p b : Entry) (C rest : List Entry),
      (∀ e ∈ A, e.ts < start) → p.ts < start → b.ts = start →
      (∀ e ∈ C, start < e.ts ∧ e.ts < start + secondsPerDay) →
      (∀ e ∈ rest, start + secondsPerDay ≤ e.ts) →
      (NamesByDate.apply start (A ++ [p] ++ [b] ++ C ++ rest)).countP
        (fun e => decide (e.ts < start)) = 0)
    ∧ (∀ (start : Int) (content : List Entry),
      (∀ e ∈ content, e.ts < start ∨ start + secondsPerDay ≤ e.ts) →
      NamesByDate.apply start content = []) := by
  refine ⟨?_, ?_, ?_⟩
  · intro start A p C rest hA hp hCne hC hrest
    have hlt : start < start + secondsPerDay := by
      simp only [secondsPerDay]
      omega
    rw [NamesByDate.apply, List.mem_mergeSort]
    have hassoc : A ++ [p] ++ C ++ rest = (A ++ [p]) ++ (C ++ rest) := by
      simp [List.append_assoc]
    rw [hassoc, namesGo_skip_prefix start (start + secondsPerDay) hlt (A ++ [p])
        (C ++ rest) none []
        (by
          intro e he
          rcases List.mem_append.mp he with h | h
          · exact hA e h
          · rw [List.mem_singleton.mp h]; exact hp)]
    rw [List.getLast?_concat]
    simp only [Option.or_some]
    obtain ⟨c, C', rfl⟩ := List.exists_cons_of_ne_nil hCne
    rw [List.cons_append,
      namesGo_inwindow_cons start (start + secondsPerDay) c
        (hC c (List.mem_cons_self c C')) _ _ _,
      if_pos (by simp)]
    simp only [Option.toList_some, List.nil_append]
    rw [namesGo_inwindow_append start (start + secondsPerDay) C' rest (some p)
        ([p] ++ [c]) (fun e he => hC e (List.mem_cons_of_mem c he)) (by simp)]
    rcases namesGo_tail_after_end start (start + secondsPerDay) hlt rest (some p)
        (([p] ++ [c]) ++ C') hrest with h | ⟨r, _, h⟩ <;> rw [h] <;> simp
  · intro start A p b C rest hA hp hb hC hrest
    have hlt : start < start + secondsPerDay := by
      simp only [secondsPerDay]
      omega
    have hperm := List.mergeSort_perm
      (namesGo start (start + secondsPerDay) (A ++ [p] ++ [b] ++ C ++ rest) none [])
      (fun a b => a.name ≤ b.name)
    rw [NamesByDate.apply, hperm.countP_eq]
    have hassoc : A ++ [p] ++ [b] ++ C ++ rest = (A ++ [p]) ++ (b :: (C ++ rest)) := by
      simp [List.append_assoc]
    rw [hassoc, namesGo_skip_prefix start (start + secondsPerDay) hlt (A ++ [p])
        (b :: (C ++ rest)) none []
        (by
          intro e he
          rcases List.mem_append.mp he with h | h
          · exact hA e h
          · rw [List.mem_singleton.mp h]; exact hp)]
    rw [List.getLast?_concat]
    simp only [Option.or_some]
    have hbstep : namesGo start (start + secondsPerDay) (b :: (C ++ rest)) (some p) [] =
        namesGo start (start + secondsPerDay) (C ++ rest) (some p) [b] := by
      simp only [namesGo, if_pos hb]
      rfl
    rw [hbstep,
      namesGo_inwindow_append start (start + secondsPerDay) C rest (some p) [b] hC
        (by simp)]
    rcases namesGo_tail_after_end start (start + secondsPerDay) hlt rest (some p)
        ([b] ++ C) hrest with h | ⟨r, hr, h⟩ <;> rw [h] <;>
      rw [List.countP_eq_zero] <;> intro x hx <;> simp only [decide_eq_true_eq]
    · rcases List.mem_append.mp hx with h' | h'
      · rw [List.mem_singleton.mp h']; omega
      · have := hC x h'
        omega
    · rcases List.mem_append.mp hx with h' | h'
      · rcases List.mem_append.mp h' with h'' | h''
        · rw [List.mem_singleton.mp h'']; omega
        · have := hC x h''
          omega
      · have := hrest x (by rw [List.mem_singleton.mp h']; exact hr)
        rw [List.mem_singleton.mp h'] at this ⊢
        omega
  · intro start content hcontent
    have hlt : start < start + secondsPerDay := by
      simp only [secondsPerDay]
      omega
    rw [NamesByDate.apply,
      namesGo_none_inwindow start (start + secondsPerDay) hlt content none hcontent]
    simp

/-- C3 witness: the three parts of the carry-over policy at concrete
inputs — the preceding entry at -5 s is carried into day 0's selection
`[p, c]`; it is dropped when an entry sits exactly on midnight; and a
purely pre-window sequence selects nothing. -/
theorem c3_carry_over_policy_witness :
    (⟨"p", -5⟩ : Entry) ∈ NamesByDate.apply 0 [⟨"p", -5⟩, ⟨"c", 10⟩]
    ∧ (NamesByDate.apply 0 [⟨"p", -5⟩, ⟨"b", 0⟩, ⟨"c", 10⟩]).countP
        (fun e => decide (e.ts < 0)) = 0
    ∧ NamesByDate.apply 0 [⟨"x", -7⟩] = [] := by
  refine ⟨?_, ?_, ?_⟩
  · have h := c3_carry_over_policy.1 0 [] ⟨"p", -5⟩ [⟨"c", 10⟩] []
      (by intro e he; cases he) (by decide) (by decide)
      (by intro e he; rw [List.mem_singleton.mp he]; decide)
      (by intro e he; cases he)
    simpa using h
  · have h := c3_carry_over_policy.2.1 0 [] ⟨"p", -5⟩ ⟨"b", 0⟩ [⟨"c", 10⟩] []
      (by intro e he; cases he) (by decide) (by decide)
      (by intro e he; rw [List.mem_singleton.mp he]; decide)
      (by intro e he; cases he)
    simpa using h
  · have h := c3_carry_over_policy.2.2 0 [⟨"x", -7⟩]
      (by intro e he; rw [List.mem_singleton.mp he]; left; decide)
    simpa using h

/-- C4: whenever `_get_masks` succeeds and every per-record day mask is
entirely `False`, `IndicesByDate.apply` returns the explicit no-data
sentinel (Python `None`, `.ok none`) and does not raise: the all-`False`
check sits before every fallible step that follows it. -/
theorem c4_no_data_sentinel (target : Int) (content : List InstrumentData)
    (masks : List (List Bool))
    (hm : IndicesByDate.getMasks target content = some masks)
    (hfalse : ∀ m ∈ masks, ∀ b ∈ m, b = false) :
    IndicesByDate.apply target content = .ok none := by
  have hany : masks.any (fun m => m.any id) = false := by
    rw [List.any_eq_false]
    intro m hm2
    rw [Bool.not_eq_true, List.any_eq_false]
    intro b hb
    have := hfalse m hm2 b hb
    simp [this]
  simp only [IndicesByDate.apply, hm, hany]
  rfl

/-- C4 witness: a record whose only sample lies on day 0, filtered for day
3, yields the all-`False` mask `[[false]]` and the `None` sentinel. -/
theorem c4_no_data_sentinel_witness :
    IndicesByDate.getMasks 3 [c4Rec] = some [[false]]
    ∧ IndicesByDate.apply 3 [c4Rec] = Except.ok none :=
  ⟨by decide, c4_no_data_sentinel 3 [c4Rec] [[false]] (by decide) (by decide)⟩

/-- C1 counterexample: on the two synthetic seam files, the day-1 record
built by `IndicesByDate.apply` carries the absolute times `c1Expected`,
and that list duplicates the seam timestamp 00:00:10 (Unix 86410) — it
appears in both files (the first file ends with it, the second starts with
it), so the claim "no duplicated timestamp" is false on this input. -/
theorem c1_seam_duplicate :
    (applyOut (IndicesByDate.apply 1 [c1Rec1, c1Rec2])).bind recTimes = some c1Expected
    ∧ ¬ c1Expected.Nodup := by
  constructor
  · rfl
  · decide

/-- C1 (amended): on the two synthetic seam files, the day-1 record built
by `IndicesByDate.apply` has as its time samples exactly the samples of
both files whose calendar date is day 1, concatenated in file order — the
seam sample 00:00:10 therefore appears twice, once from each file — in
non-decreasing time order, with every sample of the 10 s grid from
00:00:00 through 00:10:00 present (no gap at the seam). -/
theorem c1_seam_merge :
    (applyOut (IndicesByDate.apply 1 [c1Rec1, c1Rec2])).bind recTimes = some c1Expected
    ∧ (daySamplesOf c1Rec1 1).getD [] ++ (daySamplesOf c1Rec2 1).getD [] = c1Expected
    ∧ (daySamplesOf c1Rec1 1).isSome ∧ (daySamplesOf c1Rec2 1).isSome
    ∧ List.Pairwise (· ≤ ·) c1Expected
    ∧ ((List.range 61).all fun k => c1Expected.contains (86400 + 10 * Int.ofNat k)) = true := by
  refine ⟨by rfl, by decide, by decide, by decide, by decide, by decide⟩

set_option maxRecDepth 8000 in
/-- C8: fusing grids in which the lidar's 540 m window holds the samples
`1,1,1,1,0` (mean 0.8, no flags) while the radar's window is entirely the
flag value yields the role-specific "cloud detected by lidar with both
signals available" code 1, not the "both agree cloud" code 3 — the
partial-flag branch fires before the all-means comparison. -/
theorem c8_flagged_radar_cell :
    (mergeDailyMasks c8DfL c8DfR).bind (fun g => (g.get? 0).bind fun r => r.get? 6) =
      some 1
    ∧ winCells (windowOf 0 540 c8DfL) = [1, 1, 1, 1, 0]
    ∧ hasFlag (windowOf 0 540 c8DfL) = false
    ∧ winCells (windowOf 0 540 c8DfR) = [flagValue]
    ∧ (decide ((1 : Int) = 3)) = false := by
  refine ⟨by decide, by decide, by decide, by decide, by decide⟩

/-- C7 counterexample: at the cell (t = 0, e = 540 m) of the `c7` grids,
the lidar window holds one flag and one genuine sample while the radar
window is all-flagged.  The all-flagged rule fires (the guard only asks
that each window CONTAIN the flag), the windows are not all-flag-only, and
the cell is classified 1 by the flag-replaced-mean rule — so "applied
exactly to cells in which every instrument's window contains only flagged
values" is false. -/
theorem c7_counterexample :
    fusionBranch (shebaWins c7DfL c7DfR 0 540) = FusionBranch.allFlagged
    ∧ onlyFlagWindows (shebaWins c7DfL c7DfR 0 540) = false
    ∧ cellDecision (shebaWins c7DfL c7DfR 0 540) = 1 := by
  refine ⟨by decide, by decide, by decide⟩

/-- C7 (amended): the all-flagged rule of the per-cell fusion decision is
applied exactly to those cells in which every instrument's window contains
at least one flagged/sentinel value — equivalently, each window contains a
flag and (hence) no instrument is missing; windows that mix flags with
genuine samples still take this branch. -/
theorem c7_all_flagged_guard (dfL dfR : DF) (t e : Int) :
    fusionBranch (shebaWins dfL dfR t e) = FusionBranch.allFlagged ↔
      (hasFlag (windowOf t e dfL) = true ∧ hasFlag (windowOf t e dfR) = true
       ∧ 0 < winSize (windowOf t e dfL) ∧ 0 < winSize (windowOf t e dfR)) := by
  have sizeFlag : ∀ w : List (List Int), hasFlag w = true → 0 < winSize w := by
    intro w hw
    rw [hasFlag, List.contains_eq_any_beq, List.any_eq_true] at hw
    obtain ⟨c, hc, _⟩ := hw
    rw [winSize]
    exact List.length_pos.mpr (List.ne_nil_of_mem hc)
  constructor
  · intro h
    rw [fusionBranch, shebaWins] at h
    split at h
    · exact absurd h (by decide)
    · split at h
      · rename_i hflags
        simp only [List.all_cons, List.all_nil, Bool.and_true, Bool.and_eq_true] at hflags
        exact ⟨hflags.1, hflags.2, sizeFlag _ hflags.1, sizeFlag _ hflags.2⟩
      · split at h
        · exact absurd h (by decide)
        · split at h
          · exact absurd h (by decide)
          · split at h
            · exact absurd h (by decide)
            · split at h
              · exact absurd h (by decide)
              · exact absurd h (by decide)
  · intro ⟨h1, h2, h3, h4⟩
    rw [fusionBranch, shebaWins]
    have hg1 : ([(Instrument.dabul, windowOf t e dfL),
        (Instrument.mmcr, windowOf t e dfR)].all fun p => winSize p.2 == 0) = false := by
      simp only [List.all_cons, List.all_nil, Bool.and_true, Bool.and_eq_false_iff]
      left
      simp only [beq_eq_false_iff_ne, ne_eq]
      omega
    have hg2 : ([(Instrument.dabul, windowOf t e dfL),
        (Instrument.mmcr, windowOf t e dfR)].all fun p => hasFlag p.2) = true := by
      simp only [List.all_cons, List.all_nil, Bool.and_true, Bool.and_eq_true]
      exact ⟨h1, h2⟩
    rw [hg1, hg2]
    simp

theorem cellDecision_mem_codeSet (wins : List (Instrument × List (List Int))) :
    cellDecision wins ∈ codeSet := by
  by_cases g1 : (wins.all fun p => winSize p.2 == 0) = true
  · have hfb : fusionBranch wins = .missingAll := by rw [fusionBranch, if_pos g1]
    simp only [cellDecision, hfb]
    decide
  · by_cases g2 : (wins.all fun p => hasFlag p.2) = true
    · have hfb : fusionBranch wins = .allFlagged := by
        rw [fusionBranch, if_neg g1, if_pos g2]
      simp only [cellDecision, hfb]
      split
      · decide
      · rename_i hany
        have hany2 : (wins.any fun p => geHalfB (replaceFlag p.2)) = true := by
          simpa using hany
        have hs : ((wins.find? fun p => geHalfB (replaceFlag p.2)).isSome) := by
          rw [List.find?_isSome]
          obtain ⟨x, hx, hpx⟩ := List.any_eq_true.mp hany2
          exact ⟨x, hx, hpx⟩
        obtain ⟨q, hq⟩ := Option.isSome_iff_exists.mp hs
        simp only [hq]
        rcases q with ⟨i, w⟩
        cases i <;> simp [lidarRadar, codeSet]
    · by_cases g3 : (wins.all fun p => winSize p.2 != 0) = true
      · by_cases g4 : (wins.any fun p => hasFlag p.2) = true
        · have hfb : fusionBranch wins = .someFlagged := by
            rw [fusionBranch, if_neg g1, if_neg g2,
              if_neg (by simp only [g3, Bool.not_true]; exact Bool.false_ne_true),
              if_pos g4]
          simp only [cellDecision, hfb]
          have hs : ((wins.find? fun p => hasFlag p.2).isSome) := by
            rw [List.find?_isSome]
            obtain ⟨x, hx, hpx⟩ := List.any_eq_true.mp g4
            exact ⟨x, hx, hpx⟩
          obtain ⟨q, hq⟩ := Option.isSome_iff_exists.mp hs
          simp only [hq, finalResolve]
          rcases q with ⟨i, w⟩
          split <;> cases i <;> simp [lidarRadar, codeSet]
        · by_cases g5 : (wins.all fun p => geHalfB p.2) = true
          · have hfb : fusionBranch wins = .bothCloud := by
              rw [fusionBranch, if_neg g1, if_neg g2,
                if_neg (by simp only [g3, Bool.not_true]; exact Bool.false_ne_true),
                if_neg g4, if_pos g5]
            simp only [cellDecision, hfb]
            decide
          · by_cases g6 : (wins.any fun p => geHalfB p.2) = true
            · have hfb : fusionBranch wins = .oneCloud := by
                rw [fusionBranch, if_neg g1, if_neg g2,
                  if_neg (by simp only [g3, Bool.not_true]; exact Bool.false_ne_true),
                  if_neg g4, if_neg g5, if_pos g6]
              simp only [cellDecision, hfb]
              have hs : ((wins.find? fun p => ltHalfB p.2).isSome) := by
                rw [List.find?_isSome]
                rw [List.all_eq_true] at g5
                push_neg at g5
                obtain ⟨x, hx, hpx0⟩ := g5
                have hpx : geHalfB x.2 = false := by simpa using hpx0
                refine ⟨x, hx, ?_⟩
                have hsz : (winSize x.2 != 0) = true := by
                  rw [List.all_eq_true] at g3
                  exact g3 x hx
                rw [bne_iff_ne] at hsz
                rw [geHalfB, Bool.and_eq_false_iff] at hpx
                rcases hpx with hpx | hpx
                · rw [decide_eq_false_iff_not] at hpx
                  exact absurd hsz hpx
                · rw [decide_eq_false_iff_not, Int.not_le] at hpx
                  rw [ltHalfB, Bool.and_eq_true]
                  exact ⟨by simpa using hsz, by simpa using hpx⟩
              obtain ⟨q, hq⟩ := Option.isSome_iff_exists.mp hs
              simp only [hq]
              rcases q with ⟨i, w⟩
              cases i <;> simp [lidarRadar, codeSet]
            · have hfb : fusionBranch wins = .bothClear := by
                rw [fusionBranch, if_neg g1, if_neg g2,
                  if_neg (by simp only [g3, Bool.not_true]; exact Bool.false_ne_true),
                  if_neg g4, if_neg g5, if_neg g6]
              simp only [cellDecision, hfb]
              decide
      · have hg3f : (wins.all fun p => winSize p.2 != 0) = false := by
          rw [Bool.not_eq_true] at g3
          exact g3
        have hfb : fusionBranch wins = .someEmpty := by
          rw [fusionBranch, if_neg g1, if_neg g2, if_pos (by rw [hg3f]; rfl)]
        simp only [cellDecision, hfb]
        have hs : ((wins.find? fun p => winSize p.2 == 0).isSome) := by
          rw [List.find?_isSome]
          rw [List.all_eq_false] at hg3f
          obtain ⟨x, hx, hpx⟩ := hg3f
          refine ⟨x, hx, ?_⟩
          simpa using hpx
        obtain ⟨q, hq⟩ := Option.isSome_iff_exists.mp hs
        simp only [hq, finalResolve]
        rcases q with ⟨i, w⟩
        split <;> cases i <;> simp [lidarRadar, codeSet]

/-- C6: every cell of the fused grid produced by `merge_daily_masks` holds
a code from the documented closed set, and every cell of a column whose
elevation lies below the 500 m floor is left at the neutral code 0 (the
`continue` skips it). -/
theorem c6_code_invariants (dfL dfR : DF) (g : List (List Int)) (elevs : List Int)
    (hg : mergeDailyMasks dfL dfR = some g)
    (he : mergeElevs dfL dfR = some elevs) :
    (∀ row ∈ g, ∀ c ∈ row, c ∈ codeSet)
    ∧ (∀ row ∈ g, ∀ j e0, elevs.get? j = some e0 → e0 < minElevation →
        row.get? j = some 0) := by
  rw [mergeDailyMasks] at hg
  rw [mergeElevs] at he
  rcases hL : dfL.columns.max? with _ | mL <;> rw [hL] at hg he
  · cases hg
  · rcases hR : dfR.columns.max? with _ | mR <;> rw [hR] at hg he
    · cases hg
    · rw [Option.some_inj] at hg he
      subst hg
      subst he
      constructor
      · intro row hrow c hc
        obtain ⟨t, _, rfl⟩ := List.mem_map.mp hrow
        obtain ⟨e, _, rfl⟩ := List.mem_map.mp hc
        split
        · decide
        · exact cellDecision_mem_codeSet _
      · intro row hrow j e0 hj he0
        obtain ⟨t, _, rfl⟩ := List.mem_map.mp hrow
        rw [List.get?_map, hj]
        simp [he0]

set_option maxRecDepth 100000 in
/-- C6 witness: merging two empty single-column grids (column at 0 m)
produces a grid; the theorem applied there puts its first cell, 0, in the
documented code set. -/
theorem c6_code_invariants_witness :
    mergeDailyMasks c6Df c6Df = some ((mergeDailyMasks c6Df c6Df).getD [])
    ∧ mergeElevs c6Df c6Df = some [0]
    ∧ (0 : Int) ∈ codeSet := by
  have hg : mergeDailyMasks c6Df c6Df = some ((mergeDailyMasks c6Df c6Df).getD []) := rfl
  have he : mergeElevs c6Df c6Df = some [0] := rfl
  have h := c6_code_invariants c6Df c6Df ((mergeDailyMasks c6Df c6Df).getD []) [0] hg he
  refine ⟨hg, he, ?_⟩
  have hrow : ((mergeDailyMasks c6Df c6Df).getD []).get? 0 = some [0] := rfl
  have hcell := h.2 [0] (List.get?_mem hrow) 0 0 rfl (by decide)
  have hmem : (0 : Int) ∈ [(0 : Int)] := List.mem_singleton.mpr rfl
  exact h.1 [0] (List.get?_mem hrow) 0 hmem

theorem extractWalk_skip_all :
    ∀ (ts : List (Int × Int × Int)) (below : Int),
      (∀ t ∈ ts, t.1 < minElevation) →
      extractWalk below ts = (below, [], []) := by
  intro ts
  induction ts with
  | nil => intro below _; rfl
  | cons t ts ih =>
    intro below h
    rcases t with ⟨e, cur, ab⟩
    have he : e < minElevation := h (e, cur, ab) (List.mem_cons_self _ _)
    rw [extractWalk, if_pos he]
    exact ih below fun x hx => h x (List.mem_cons_of_mem _ hx)

theorem extractWalk_base_mem :
    ∀ (ts : List (Int × Int × Int)) (below : Int) (v : VerticalTransition),
      v ∈ (extractWalk below ts).2.1 →
      ∃ t ∈ ts, v.elevation = t.1 - elevOffset ∧ minElevation ≤ t.1 ∧ 0 < t.2.1 := by
  intro ts
  induction ts with
  | nil => intro below v hv; simp [extractWalk] at hv
  | cons t ts ih =>
    intro below v hv
    rcases t with ⟨e, cur, ab⟩
    by_cases he : e < minElevation
    · rw [extractWalk, if_pos he] at hv
      obtain ⟨t', ht', h⟩ := ih below v hv
      exact ⟨t', List.mem_cons_of_mem _ ht', h⟩
    · rw [extractWalk, if_neg he] at hv
      simp only [] at hv
      rcases List.mem_append.mp hv with h | h
      · by_cases hc : below ≤ 0 ∧ 0 < cur
        · rw [if_pos hc, List.mem_singleton] at h
          subst h
          exact ⟨(e, cur, ab), List.mem_cons_self _ _, rfl, by omega, hc.2⟩
        · rw [if_neg hc] at h
          cases h
      · obtain ⟨t', ht', hh⟩ := ih cur v h
        exact ⟨t', List.mem_cons_of_mem _ ht', hh⟩

theorem extractWalk_top_mem :
    ∀ (ts : List (Int × Int × Int)) (below : Int) (v : VerticalTransition),
      v ∈ (extractWalk below ts).2.2 →
      ∃ t ∈ ts, v.elevation = t.1 + elevOffset ∧ minElevation ≤ t.1 ∧ 0 < t.2.1
        ∧ t.2.2 ≤ 0 := by
  intro ts
  induction ts with
  | nil => intro below v hv; simp [extractWalk] at hv
  | cons t ts ih =>
    intro below v hv
    rcases t with ⟨e, cur, ab⟩
    by_cases he : e < minElevation
    · rw [extractWalk, if_pos he] at hv
      obtain ⟨t', ht', h⟩ := ih below v hv
      exact ⟨t', List.mem_cons_of_mem _ ht', h⟩
    · rw [extractWalk, if_neg he] at hv
      simp only [] at hv
      rcases List.mem_append.mp hv with h | h
      · by_cases hc : ab ≤ 0 ∧ 0 < cur
        · rw [if_pos hc, List.mem_singleton] at h
          subst h
          exact ⟨(e, cur, ab), List.mem_cons_self _ _, rfl, by omega, hc.2, hc.1⟩
        · rw [if_neg hc] at h
          cases h
      · obtain ⟨t', ht', hh⟩ := ih cur v h
        exact ⟨t', List.mem_cons_of_mem _ ht', hh⟩

theorem extractWalk_base_pairwise :
    ∀ (ts : List (Int × Int × Int)) (below : Int),
      List.Pairwise (· < ·) (ts.map fun t => t.1) →
      List.Pairwise (· < ·)
        (((extractWalk below ts).2.1).map VerticalTransition.elevation) := by
  intro ts
  induction ts with
  | nil => intro below _; simp [extractWalk]
  | cons t ts ih =>
    intro below hpw
    rcases t with ⟨e, cur, ab⟩
    rw [List.map_cons, List.pairwise_cons] at hpw
    by_cases he : e < minElevation
    · rw [extractWalk, if_pos he]
      exact ih below hpw.2
    · rw [extractWalk, if_neg he]
      simp only []
      rw [List.map_append, List.pairwise_append]
      refine ⟨?_, ih cur hpw.2, ?_⟩
      · split <;> simp
      · intro a ha b hb
        rcases List.mem_map.mp hb with ⟨v, hv, rfl⟩
        obtain ⟨t', ht', hel, _, _⟩ := extractWalk_base_mem ts cur v hv
        have hlt : e < t'.1 := hpw.1 t'.1 (List.mem_map_of_mem _ ht')
        have ha2 : a = e - elevOffset := by
          rcases List.mem_map.mp ha with ⟨u, hu, rfl⟩
          by_cases hc : below ≤ 0 ∧ 0 < cur
          · rw [if_pos hc, List.mem_singleton] at hu
            subst hu
            rfl
          · rw [if_neg hc] at hu
            cases hu
        rw [ha2, hel]
        omega

theorem extractWalk_top_pairwise :
    ∀ (ts : List (Int × Int × Int)) (below : Int),
      List.Pairwise (· < ·) (ts.map fun t => t.1) →
      List.Pairwise (· < ·)
        (((extractWalk below ts).2.2).map VerticalTransition.elevation) := by
  intro ts
  induction ts with
  | nil => intro below _; simp [extractWalk]
  | cons t ts ih =>
    intro below hpw
    rcases t with ⟨e, cur, ab⟩
    rw [List.map_cons, List.pairwise_cons] at hpw
    by_cases he : e < minElevation
    · rw [extractWalk, if_pos he]
      exact ih below hpw.2
    · rw [extractWalk, if_neg he]
      simp only []
      rw [List.map_append, List.pairwise_append]
      refine ⟨?_, ih cur hpw.2, ?_⟩
      · split <;> simp
      · intro a ha b hb
        rcases List.mem_map.mp hb with ⟨v, hv, rfl⟩
        obtain ⟨t', ht', hel, _, _⟩ := extractWalk_top_mem ts cur v hv
        have hlt : e < t'.1 := hpw.1 t'.1 (List.mem_map_of_mem _ ht')
        have ha2 : a = e + elevOffset := by
          rcases List.mem_map.mp ha with ⟨u, hu, rfl⟩
          by_cases hc : ab ≤ 0 ∧ 0 < cur
          · rw [if_pos hc, List.mem_singleton] at hu
            subst hu
            rfl
          · rw [if_neg hc] at hu
            cases hu
        rw [ha2, hel]
        omega

theorem extractWalk_below_last :
    ∀ (l : List (Int × Int × Int)) (t0 : Int × Int × Int) (below : Int),
      minElevation ≤ t0.1 →
      (extractWalk below (l ++ [t0])).1 = t0.2.1 := by
  intro l
  induction l with
  | nil =>
    intro t0 below h
    rcases t0 with ⟨e, cur, ab⟩
    simp only [List.nil_append]
    rw [extractWalk, if_neg (by simp only [] at h ⊢; omega)]
    rfl
  | cons a l ih =>
    intro t0 below h
    rcases a with ⟨e, cur, ab⟩
    rw [List.cons_append, extractWalk]
    by_cases he : e < minElevation
    · rw [if_pos he]
      exact ih t0 below h
    · rw [if_neg he]
      exact ih t0 cur h

theorem extractWalk_all_clear :
    ∀ (ts : List (Int × Int × Int)) (below : Int),
      (∀ t ∈ ts, t.2.1 ≤ 0) →
      (extractWalk below ts).2.1 = [] ∧ (extractWalk below ts).2.2 = [] := by
  intro ts
  induction ts with
  | nil => intro below _; exact ⟨rfl, rfl⟩
  | cons t ts ih =>
    intro below h
    rcases t with ⟨e, cur, ab⟩
    have hc : cur ≤ 0 := h (e, cur, ab) (List.mem_cons_self _ _)
    have hrest := ih cur fun x hx => h x (List.mem_cons_of_mem _ hx)
    have hrest2 := ih below fun x hx => h x (List.mem_cons_of_mem _ hx)
    by_cases he : e < minElevation
    · rw [extractWalk, if_pos he]
      exact hrest2
    · rw [extractWalk, if_neg he]
      simp only []
      rw [if_neg (by omega), if_neg (by omega)]
      simpa using hrest

theorem pairwise_fst_zip {α β : Type} (R : α → α → Prop) :
    ∀ (l₁ : List α) (l₂ : List β), List.Pairwise R l₁ →
      List.Pairwise (fun a b => R a.1 b.1) (l₁.zip l₂) := by
  intro l₁
  induction l₁ with
  | nil => intro l₂ _; simp
  | cons a l ih =>
    intro l₂ hp
    cases l₂ with
    | nil => simp [List.zip_nil_right]
    | cons b l₂ =>
      rw [List.zip_cons_cons, List.pairwise_cons]
      rw [List.pairwise_cons] at hp
      refine ⟨?_, ih l₂ hp.2⟩
      intro p hp2
      rcases p with ⟨x, y⟩
      exact hp.1 x (List.of_mem_zip hp2).1

theorem mergeElevations_pairwise (maxE : Int) :
    List.Pairwise (· < ·) (mergeElevations maxE) := by
  rw [mergeElevations]
  split
  · simp
  · rw [List.pairwise_map]
    refine (List.pairwise_lt_range _).imp ?_
    intro a b hab
    have h2 : Int.ofNat a < Int.ofNat b := Int.ofNat_lt.mpr hab
    omega

theorem mergeElevations_length (maxE : Int) (h90 : 90 ≤ maxE) :
    2 ≤ (mergeElevations maxE).length := by
  rw [mergeElevations, if_neg (by omega)]
  rw [List.length_map, List.length_range]
  have h1 : (90 : Nat) ≤ maxE.toNat := by omega
  have := Nat.div_le_div_right (c := 90) h1
  simp only [Nat.div_self] at this
  omega

/-- C9: for every time row of a fused grid (elevation axis
`mergeElevations maxE` with at least two columns), the base transitions
emitted by the `extract_daily_extents` walk have strictly increasing
elevations, and likewise the top transitions; and when every code at or
above the elevation floor is non-positive while the below-floor cells hold
the fused grid's neutral 0, both sequences are empty. -/
theorem c9_extent_transitions (maxE : Int) (h90 : 90 ≤ maxE) (row : List Int)
    (bases tops : List VerticalTransition)
    (hx : extractRow (mergeElevations maxE) row = some (bases, tops)) :
    (List.Pairwise (· < ·) (bases.map VerticalTransition.elevation)
      ∧ List.Pairwise (· < ·) (tops.map VerticalTransition.elevation))
    ∧ ((∀ (j : Nat) (e c : Int), (mergeElevations maxE)[j]? = some e →
          row[j]? = some c →
          (minElevation ≤ e → c ≤ 0) ∧ (e < minElevation → c = 0)) →
        bases = [] ∧ tops = []) := by
  set elevs := mergeElevations maxE with helevs
  rw [extractRow] at hx
  split at hx
  · cases hx
  · rename_i hguard
    push_neg at hguard
    obtain ⟨hlen2, hrowlen⟩ := hguard
    simp only [Option.some_inj, Prod.mk.injEq] at hx
    obtain ⟨hA, hB⟩ := hx
    set triples := elevs.zip (row.zip row.tail) with htris
    set w := extractWalk verticalRail triples with hwdef
    have htlen : triples.length = elevs.length - 1 := by
      rw [htris, List.length_zip, List.length_zip, List.length_tail, hrowlen]
      omega
    have hne : triples ≠ [] := by
      rw [← List.length_pos]
      omega
    set t0 := triples.getLast hne with ht0def
    have hdecomp : triples.dropLast ++ [t0] = triples :=
      List.dropLast_concat_getLast hne
    have ht0get : triples[triples.length - 1]? = some t0 := by
      rw [← List.getLast?_eq_getElem?, List.getLast?_eq_getLast triples hne]
    have hidx : triples.length - 1 = elevs.length - 2 := by omega
    rw [hidx] at ht0get
    rw [htris] at ht0get
    obtain ⟨h1, h2⟩ := List.getElem?_zip_eq_some.mp ht0get
    obtain ⟨h3, h4⟩ := List.getElem?_zip_eq_some.mp h2
    rw [List.getElem?_tail] at h4
    have hn1 : elevs.length - 2 + 1 = row.length - 1 := by omega
    rw [hn1] at h4
    have hE2v : elevs.getD (elevs.length - 2) 0 = t0.1 := by
      rw [List.getD_eq_getElem?_getD, h1]
      rfl
    have hcurv : row.getD (row.length - 1) 0 = t0.2.2 := by
      rw [List.getD_eq_getElem?_getD, h4]
      rfl
    have hpw : List.Pairwise (fun a b => a.1 < b.1) triples := by
      rw [htris]
      exact pairwise_fst_zip _ _ _ (mergeElevations_pairwise maxE)
    have hpwm : List.Pairwise (· < ·) (triples.map fun t => t.1) :=
      List.pairwise_map.mpr hpw
    have hlast_lt : ∀ t ∈ triples.dropLast, t.1 < t0.1 := by
      intro t ht
      have hp2 := hpw
      rw [← hdecomp] at hp2
      exact (List.pairwise_append.mp hp2).2.2 t ht t0 (List.mem_singleton.mpr rfl)
    constructor
    · constructor
      · subst hA
        by_cases hfin : 0 < row.getD (row.length - 1) 0 ∧ w.1 ≤ 0
        · rw [if_pos hfin, List.map_append, List.pairwise_append]
          refine ⟨extractWalk_base_pairwise triples verticalRail hpwm, by simp, ?_⟩
          intro a ha b hb
          simp only [List.map_cons, List.map_nil, List.mem_singleton] at hb
          subst hb
          rcases List.mem_map.mp ha with ⟨v, hv, rfl⟩
          obtain ⟨t, ht, hel, hge, hpos⟩ :=
            extractWalk_base_mem triples verticalRail v hv
          rw [← hdecomp] at ht
          rcases List.mem_append.mp ht with h | h
          · have := hlast_lt t h
            rw [hel, hE2v]
            omega
          · rw [List.mem_singleton] at h
            subst h
            have hbl : w.1 = t0.2.1 := by
              rw [hwdef, ← hdecomp]
              exact extractWalk_below_last triples.dropLast t0 verticalRail hge
            have := hfin.2
            omega
        · rw [if_neg hfin]
          exact extractWalk_base_pairwise triples verticalRail hpwm
      · subst hB
        by_cases hfin : 0 < row.getD (row.length - 1) 0
        · rw [if_pos hfin, List.map_append, List.pairwise_append]
          refine ⟨extractWalk_top_pairwise triples verticalRail hpwm, by simp, ?_⟩
          intro a ha b hb
          simp only [List.map_cons, List.map_nil, List.mem_singleton] at hb
          subst hb
          rcases List.mem_map.mp ha with ⟨v, hv, rfl⟩
          obtain ⟨t, ht, hel, hge, hpos, hab⟩ :=
            extractWalk_top_mem triples verticalRail v hv
          rw [← hdecomp] at ht
          rcases List.mem_append.mp ht with h | h
          · have := hlast_lt t h
            rw [hel, hE2v]
            omega
          · rw [List.mem_singleton] at h
            subst h
            rw [hcurv] at hfin
            omega
        · rw [if_neg hfin]
          exact extractWalk_top_pairwise triples verticalRail hpwm
    · intro hclear
      have hcells : ∀ (k : Nat) (c : Int), row[k]? = some c → c ≤ 0 := by
        intro k c hk
        obtain ⟨hkb, _⟩ := List.getElem?_eq_some_iff.mp hk
        have hkb2 : k < elevs.length := by omega
        have hek : elevs[k]? = some elevs[k] := List.getElem?_eq_getElem hkb2
        obtain ⟨hcl1, hcl2⟩ := hclear k elevs[k] c hek hk
        by_cases hfl : minElevation ≤ elevs[k]
        · exact hcl1 hfl
        · have := hcl2 (by omega)
          omega
      have htri : ∀ t ∈ triples, t.2.1 ≤ 0 := by
        intro t ht
        rcases t with ⟨e, c1, c2⟩
        rw [htris] at ht
        have hmem1 := (List.of_mem_zip ht).2
        have hmem2 := (List.of_mem_zip hmem1).1
        obtain ⟨k, hk⟩ := List.mem_iff_getElem?.mp hmem2
        exact hcells k c1 hk
      obtain ⟨hwb, hwt⟩ := extractWalk_all_clear triples verticalRail htri
      have hcur0 : row.getD (row.length - 1) 0 ≤ 0 := by
        rw [hcurv]
        exact hcells (row.length - 1) t0.2.2 h4
      constructor
      · subst hA
        rw [if_neg (by omega)]
        exact hwb
      · subst hB
        rw [if_neg (by omega)]
        exact hwt

/-- C9 witness: on the 0-630 m fused axis with a single cloud code at
540 m, the walk emits one base at 495 m and one top at 585 m, and the
theorem yields their strict elevation ordering. -/
theorem c9_extent_transitions_witness :
    extractRow (mergeElevations 630) [0, 0, 0, 0, 0, 0, 1, 0] =
      some ([⟨495, -10, 1⟩], [⟨585, 1, 0⟩])
    ∧ List.Pairwise (· < ·)
        (([⟨495, -10, 1⟩] : List VerticalTransition).map VerticalTransition.elevation) :=
  ⟨by decide,
   (c9_extent_transitions 630 (by decide) [0, 0, 0, 0, 0, 0, 1, 0]
      [⟨495, -10, 1⟩] [⟨585, 1, 0⟩] (by decide)).1.1⟩

/-! ## Lemmas about the `IndicesByDate` variable dictionary -/

theorem lookup_vvInsert_self :
    ∀ (vv : List (String × Val)) (n : String) (v : Val),
      (vvInsert vv n v).lookup n = some v := by
  intro vv
  induction vv with
  | nil => intro n v; simp [vvInsert, List.lookup]
  | cons q vv ih =>
    intro n v
    rcases q with ⟨k, w⟩
    rw [vvInsert]
    by_cases hk : k = n
    · subst hk
      simp [List.lookup]
    · rw [if_neg hk]
      have hnk : (n == k) = false := by
        rw [beq_eq_false_iff_ne]
        exact fun h => hk h.symm
      simp only [List.lookup, hnk]
      exact ih n v

theorem lookup_vvInsert_ne :
    ∀ (vv : List (String × Val)) (m n : String) (v : Val), m ≠ n →
      (vvInsert vv m v).lookup n = vv.lookup n := by
  intro vv
  induction vv with
  | nil =>
    intro m n v hmn
    have hnm : (n == m) = false := by
      rw [beq_eq_false_iff_ne]
      exact fun h => hmn h.symm
    simp [vvInsert, List.lookup, hnm]
  | cons q vv ih =>
    intro m n v hmn
    rcases q with ⟨k, w⟩
    rw [vvInsert]
    by_cases hk : k = m
    · rw [if_pos hk]
      have hnk : (n == k) = false := by
        rw [beq_eq_false_iff_ne]
        intro h
        exact hmn (h.trans hk).symm
      simp only [List.lookup, hnk]
    · rw [if_neg hk]
      cases hb : (n == k) with
      | false =>
        simp only [List.lookup, hb]
        exact ih m n v hmn
      | true => simp only [List.lookup, hb]

theorem lookup_none_keys {β : Type} :
    ∀ (l : List (String × β)) (n : String), l.lookup n = none →
      ∀ q ∈ l, q.1 ≠ n := by
  intro l
  induction l with
  | nil => intro n _ q hq; cases hq
  | cons p l ih =>
    intro n hl q hq
    rcases p with ⟨k, v⟩
    cases hb : (n == k) with
    | true =>
      simp only [List.lookup, hb] at hl
      cases hl
    | false =>
      simp only [List.lookup, hb] at hl
      rcases List.mem_cons.mp hq with h | h
      · subst h
        simp only [ne_eq]
        intro hc
        subst hc
        simp at hb
      · exact ih n hl q h

theorem lookup_decomp {β : Type} :
    ∀ (l : List (String × β)) (n : String) (v : β), l.lookup n = some v →
      ∃ l₁ l₂, l = l₁ ++ (n, v) :: l₂ ∧ ∀ q ∈ l₁, q.1 ≠ n := by
  intro l
  induction l with
  | nil => intro n v h; cases h
  | cons p l ih =>
    intro n v hl
    rcases p with ⟨k, w⟩
    cases hb : (n == k) with
    | true =>
      simp only [List.lookup, hb] at hl
      rw [Option.some_inj] at hl
      subst hl
      have hkn : k = n := by
        have := beq_iff_eq.mp hb
        exact this.symm
      subst hkn
      exact ⟨[], l, rfl, by intro q hq; cases hq⟩
    | false =>
      simp only [List.lookup, hb] at hl
      obtain ⟨l₁, l₂, rfl, hl₁⟩ := ih n v hl
      refine ⟨(k, w) :: l₁, l₂, rfl, ?_⟩
      intro q hq
      rcases List.mem_cons.mp hq with h | h
      · subst h
        simp only [ne_eq]
        intro hc
        subst hc
        simp at hb
      · exact hl₁ q h

theorem maskFilter_cons {α : Type} (b : Bool) (ms : List Bool) (x : α) (xs : List α) :
    maskFilter (b :: ms) (x :: xs) = (if b then [x] else []) ++ maskFilter ms xs := by
  cases b <;> simp [maskFilter]

theorem maskFilter_map {α β : Type} (f : α → β) :
    ∀ (ms : List Bool) (xs : List α),
      maskFilter ms (xs.map f) = (maskFilter ms xs).map f := by
  intro ms
  induction ms with
  | nil => intro xs; simp [maskFilter]
  | cons b ms ih =>
    intro xs
    cases xs with
    | nil => simp [maskFilter]
    | cons x xs =>
      rw [List.map_cons, maskFilter_cons, maskFilter_cons, List.map_append, ih]
      cases b <;> simp

theorem mapM_asIntQ_map_int :
    ∀ (xs : List Int), (xs.map Val.int).mapM Val.asIntQ = some xs := by
  intro xs
  rw [← List.mapM'_eq_mapM]
  induction xs with
  | nil => rfl
  | cons x xs ih => simp [List.mapM', ih, Val.asIntQ]

theorem timeVarStep_lookup_ne (data : InstrumentData) (mask : List Bool)
    (vv vv₁ : List (String × Val)) (p : String × VariableE) (n : String)
    (hok : timeVarStep data mask vv p = Except.ok vv₁) (hne : p.1 ≠ n) :
    vv₁.lookup n = vv.lookup n := by
  rw [timeVarStep] at hok
  split at hok
  · rw [Except.ok.injEq] at hok
    subst hok
    rfl
  · split at hok
    · rw [Except.ok.injEq] at hok
      subst hok
      rfl
    · split at hok
      · split at hok
        · cases hok
        · split at hok
          · cases hok
          · split at hok
            · cases hok
            · split at hok
              · cases hok
              · rw [vvAppend] at hok
                split at hok
                · cases hok
                · rw [Except.ok.injEq] at hok
                  subst hok
                  exact lookup_vvInsert_ne vv p.1 n _ hne
      · split at hok
        · cases hok
        · rw [vvAppend] at hok
          split at hok
          · cases hok
          · rw [Except.ok.injEq] at hok
            subst hok
            exact lookup_vvInsert_ne vv p.1 n _ hne

theorem timeVarStep_skip (data : InstrumentData) (mask : List Bool)
    (vv : List (String × Val)) (p : String × VariableE)
    (h : p.2.dimensions = [] ∨
      ∃ d ds, p.2.dimensions = d :: ds ∧ d.name ≠ DimName.time) :
    timeVarStep data mask vv p = Except.ok vv := by
  rw [timeVarStep]
  rcases h with h | ⟨d, ds, hdim, hname⟩
  · rw [h]
  · simp only [hdim]
    rw [if_pos (bne_iff_ne.mpr hname)]

theorem varLoop_cons_ok (data : InstrumentData) (mask : List Bool)
    (q : String × VariableE) (rest : List (String × VariableE))
    (vv vv' : List (String × Val))
    (h : varLoop data mask (q :: rest) vv = Except.ok vv') :
    ∃ vv₁, timeVarStep data mask vv q = Except.ok vv₁
      ∧ varLoop data mask rest vv₁ = Except.ok vv' := by
  rw [varLoop] at h
  split at h
  · cases h
  · rename_i vv₁ heq
    exact ⟨vv₁, heq, h⟩

theorem varLoop_append_ok (data : InstrumentData) (mask : List Bool) :
    ∀ (l₁ l₂ : List (String × VariableE)) (vv vv' : List (String × Val)),
      varLoop data mask (l₁ ++ l₂) vv = Except.ok vv' →
      ∃ vvm, varLoop data mask l₁ vv = Except.ok vvm
        ∧ varLoop data mask l₂ vvm = Except.ok vv' := by
  intro l₁
  induction l₁ with
  | nil =>
    intro l₂ vv vv' h
    exact ⟨vv, rfl, h⟩
  | cons q l₁ ih =>
    intro l₂ vv vv' h
    rw [List.cons_append] at h
    obtain ⟨vv₁, hstep, hrest⟩ := varLoop_cons_ok data mask q (l₁ ++ l₂) vv vv' h
    obtain ⟨vvm, h1, h2⟩ := ih l₂ vv₁ vv' hrest
    refine ⟨vvm, ?_, h2⟩
    rw [varLoop, hstep]
    exact h1

theorem varLoop_lookup_preserve (data : InstrumentData) (mask : List Bool)
    (n : String) :
    ∀ (vars : List (String × VariableE)) (vv vv' : List (String × Val)),
      varLoop data mask vars vv = Except.ok vv' →
      (∀ q ∈ vars, q.1 ≠ n ∨ q.2.dimensions = [] ∨
        ∃ d ds, q.2.dimensions = d :: ds ∧ d.name ≠ DimName.time) →
      vv'.lookup n = vv.lookup n := by
  intro vars
  induction vars with
  | nil =>
    intro vv vv' h _
    rw [varLoop, Except.ok.injEq] at h
    subst h
    rfl
  | cons q rest ih =>
    intro vv vv' h hq
    obtain ⟨vv₁, hstep, hrest⟩ := varLoop_cons_ok data mask q rest vv vv' h
    have htail := ih vv₁ vv' hrest fun x hx => hq x (List.mem_cons_of_mem q hx)
    rcases hq q (List.mem_cons_self q rest) with hne | hskip
    · rw [htail, timeVarStep_lookup_ne data mask vv vv₁ q n hstep hne]
    · rw [timeVarStep_skip data mask vv q hskip, Except.ok.injEq] at hstep
      subst hstep
      exact htail

theorem lookup_unique {β : Type} (l : List (String × β)) (k : String) (v : β)
    (hl : l.lookup k = some v) (hnd : (l.map Prod.fst).Nodup) :
    ∀ q ∈ l, q.1 = k → q.2 = v := by
  obtain ⟨l₁, l₂, rfl, hl₁⟩ := lookup_decomp l k v hl
  have hnd2 := hnd
  rw [List.map_append, List.map_cons, List.nodup_append] at hnd2
  have hk2 : k ∉ l₂.map Prod.fst := (List.nodup_cons.mp hnd2.2.1).1
  intro q hq hqk
  rcases List.mem_append.mp hq with h | h
  · exact absurd hqk (hl₁ q h)
  · rcases List.mem_cons.mp h with h | h
    · rw [h]
    · exact absurd (hqk ▸ List.mem_map_of_mem Prod.fst h) hk2

theorem nodup_no_tail_key {β : Type} (l₁ l₂ : List (String × β)) (k : String) (v : β)
    (hnd : (((l₁ ++ (k, v) :: l₂).map Prod.fst)).Nodup) :
    ∀ q ∈ l₂, q.1 ≠ k := by
  rw [List.map_append, List.map_cons, List.nodup_append] at hnd
  have hk2 : k ∉ l₂.map Prod.fst := (List.nodup_cons.mp hnd.2.1).1
  intro q hq hqk
  exact hk2 (hqk ▸ List.mem_map_of_mem Prod.fst hq)

theorem timeVarStep_seconds (data : InstrumentData) (mask : List Bool)
    (vv : List (String × Val)) (n : String) (var : VariableE)
    (d : DimensionE) (ds : List DimensionE) (xs : List Int) (acc : List Val)
    (e1 ep : Int)
    (hdim : var.dimensions = d :: ds) (hdname : d.name = DimName.time)
    (hunits : var.units = UnitsE.seconds)
    (hvals : var.values = Val.list (xs.map Val.int))
    (hepdata : (data.vars.lookup "epoch").bind (fun v => v.values.asIntQ) = some ep)
    (hvvep : vvGet vv "epoch" = Val.int e1)
    (hvvn : vvGet vv n = Val.list acc) :
    timeVarStep data mask vv (n, var) =
      Except.ok (vvInsert vv n
        (Val.list (acc ++ (maskFilter mask xs).map fun o => Val.int (ep + o - e1)))) := by
  rw [timeVarStep]
  simp only [hdim, hdname, bne_self_eq_false, Bool.false_eq_true, if_false, hunits,
    if_true]
  rw [hepdata]
  simp only [hvvep, Val.asIntQ, hvals, Val.asListQ, maskFilter_map,
    mapM_asIntQ_map_int]
  unfold vvAppend
  rw [hvvn]

theorem timeRecStep_skip (vv : List (String × Val))
    (q : List Bool × InstrumentData) (h : q.1.any id = false) :
    timeRecStep vv q = Except.ok vv := by
  rw [timeRecStep, if_pos h]

theorem timeRecStep_active (vv : List (String × Val))
    (q : List Bool × InstrumentData) (h : q.1.any id = true) :
    timeRecStep vv q = varLoop q.2 q.1 q.2.vars vv := by
  rw [timeRecStep, if_neg (by simp [h])]

theorem timeLoop_cons_ok (q : List Bool × InstrumentData)
    (rest : List (List Bool × InstrumentData)) (vv vv' : List (String × Val))
    (h : timeLoop (q :: rest) vv = Except.ok vv') :
    ∃ vv₁, timeRecStep vv q = Except.ok vv₁ ∧ timeLoop rest vv₁ = Except.ok vv' := by
  rw [timeLoop] at h
  split at h
  · cases h
  · rename_i vv₁ heq
    exact ⟨vv₁, heq, h⟩

theorem plainConcat_cons_skip (q : List Bool × InstrumentData)
    (rest : List (List Bool × InstrumentData)) (n : String)
    (h : q.1.any id = false) :
    plainConcat (q :: rest) n = plainConcat rest n := by
  rw [plainConcat, plainConcat, List.filter_cons, if_neg (by simp [h])]

theorem plainConcat_cons_active (q : List Bool × InstrumentData)
    (rest : List (List Bool × InstrumentData)) (n : String)
    (h : q.1.any id = true) :
    plainConcat (q :: rest) n =
      (match (q.2.vars.lookup n).bind (fun v => v.values.asListQ) with
       | some vals => maskFilter q.1 vals
       | none => []) ++ plainConcat rest n := by
  rw [plainConcat, plainConcat, List.filter_cons, if_pos (by simp [h])]
  rw [List.map_cons, List.flatten_cons]

theorem vvGet_congr (vv₁ vv₂ : List (String × Val)) (n : String)
    (h : vv₁.lookup n = vv₂.lookup n) : vvGet vv₁ n = vvGet vv₂ n := by
  rw [vvGet, vvGet, h]

theorem timeLoop_seconds (n : String) (e : Int) (hnep : n ≠ "epoch") :
    ∀ (pairs : List (List Bool × InstrumentData)) (vv vv' : List (String × Val))
      (acc : List Val),
      timeLoop pairs vv = Except.ok vv' →
      (∀ q ∈ pairs,
        (∃ vE, q.2.vars.lookup "epoch" = some vE ∧ vE.values = Val.int e ∧
          vE.dimensions = [])
        ∧ (∀ v, q.2.vars.lookup n = some v →
            (∃ d ds, v.dimensions = d :: ds ∧ d.name = DimName.time)
            ∧ v.units = UnitsE.seconds
            ∧ ∃ xs : List Int, v.values = Val.list (xs.map Val.int))
        ∧ (q.2.vars.map Prod.fst).Nodup) →
      vvGet vv "epoch" = Val.int e →
      vvGet vv n = Val.list acc →
      vvGet vv' n = Val.list (acc ++ plainConcat pairs n)
        ∧ vvGet vv' "epoch" = Val.int e := by
  intro pairs
  induction pairs with
  | nil =>
    intro vv vv' acc hok _ hep hn
    rw [timeLoop, Except.ok.injEq] at hok
    subst hok
    refine ⟨?_, hep⟩
    rw [hn]
    simp [plainConcat]
  | cons q rest ih =>
    intro vv vv' acc hok hrec hep hn
    obtain ⟨vv₁, hstep, hrest⟩ := timeLoop_cons_ok q rest vv vv' hok
    obtain ⟨⟨vE, hvE, hvEval, hvEdim⟩, hnvar, hnd⟩ := hrec q (List.mem_cons_self q rest)
    have hrecTail : ∀ x ∈ rest,
        (∃ vE, x.2.vars.lookup "epoch" = some vE ∧ vE.values = Val.int e ∧
          vE.dimensions = [])
        ∧ (∀ v, x.2.vars.lookup n = some v →
            (∃ d ds, v.dimensions = d :: ds ∧ d.name = DimName.time)
            ∧ v.units = UnitsE.seconds
            ∧ ∃ xs : List Int, v.values = Val.list (xs.map Val.int))
        ∧ (x.2.vars.map Prod.fst).Nodup :=
      fun x hx => hrec x (List.mem_cons_of_mem q hx)
    by_cases hma : q.1.any id = true
    · rw [timeRecStep_active vv q hma] at hstep
      have hepskip : ∀ p ∈ q.2.vars, p.1 ≠ "epoch" ∨ p.2.dimensions = [] ∨
          ∃ d ds, p.2.dimensions = d :: ds ∧ d.name ≠ DimName.time := by
        intro p hp
        by_cases hpe : p.1 = "epoch"
        · right
          left
          rw [lookup_unique q.2.vars "epoch" vE hvE hnd p hp hpe, hvEdim]
        · left
          exact hpe
      cases hlook : q.2.vars.lookup n with
      | none =>
        have h1 : vv₁.lookup n = vv.lookup n :=
          varLoop_lookup_preserve _ _ n q.2.vars vv vv₁ hstep
            (fun p hp => Or.inl (lookup_none_keys _ n hlook p hp))
        have h2 : vv₁.lookup "epoch" = vv.lookup "epoch" :=
          varLoop_lookup_preserve _ _ "epoch" q.2.vars vv vv₁ hstep hepskip
        have hep₁ : vvGet vv₁ "epoch" = Val.int e := by
          rw [vvGet_congr vv₁ vv "epoch" h2]
          exact hep
        have hn₁ : vvGet vv₁ n = Val.list acc := by
          rw [vvGet_congr vv₁ vv n h1]
          exact hn
        obtain ⟨ha, hb⟩ := ih vv₁ vv' acc hrest hrecTail hep₁ hn₁
        refine ⟨?_, hb⟩
        rw [ha, plainConcat_cons_active q rest n hma, hlook]
        simp
      | some var =>
        obtain ⟨⟨d0, ds, hdim, hdname⟩, hunits, xs, hvals⟩ := hnvar var hlook
        obtain ⟨vs₁, vs₂, hveq, hvs₁⟩ := lookup_decomp q.2.vars n var hlook
        have hvs₂ : ∀ p ∈ vs₂, p.1 ≠ n := nodup_no_tail_key vs₁ vs₂ n var (hveq ▸ hnd)
        rw [hveq] at hstep
        obtain ⟨vvm, hL1, hL2⟩ :=
          varLoop_append_ok _ _ vs₁ ((n, var) :: vs₂) vv vv₁ hstep
        obtain ⟨vv₂, hstep2, hL3⟩ := varLoop_cons_ok _ _ (n, var) vs₂ vvm vv₁ hL2
        have hmemv1 : ∀ p ∈ vs₁, p ∈ q.2.vars := by
          intro p hp
          rw [hveq]
          exact List.mem_append.mpr (Or.inl hp)
        have hmemv2 : ∀ p ∈ vs₂, p ∈ q.2.vars := by
          intro p hp
          rw [hveq]
          exact List.mem_append.mpr (Or.inr (List.mem_cons_of_mem _ hp))
        have hm1 : vvm.lookup n = vv.lookup n :=
          varLoop_lookup_preserve _ _ n vs₁ vv vvm hL1
            (fun p hp => Or.inl (hvs₁ p hp))
        have hm2 : vvm.lookup "epoch" = vv.lookup "epoch" :=
          varLoop_lookup_preserve _ _ "epoch" vs₁ vv vvm hL1
            (fun p hp => hepskip p (hmemv1 p hp))
        have hepdata : (q.2.vars.lookup "epoch").bind (fun v => v.values.asIntQ) =
            some e := by
          rw [hvE]
          simp [hvEval, Val.asIntQ]
        have hvvmep : vvGet vvm "epoch" = Val.int e := by
          rw [vvGet_congr vvm vv "epoch" hm2]
          exact hep
        have hvvmn : vvGet vvm n = Val.list acc := by
          rw [vvGet_congr vvm vv n hm1]
          exact hn
        rw [timeVarStep_seconds q.2 q.1 vvm n var d0 ds xs acc e e hdim hdname hunits
          hvals hepdata hvvmep hvvmn, Except.ok.injEq] at hstep2
        subst hstep2
        have hfun : (fun o => Val.int (e + o - e)) = Val.int := by
          funext o
          rw [add_sub_cancel_left]
        have hnew : ((maskFilter q.1 xs).map fun o => Val.int (e + o - e)) =
            maskFilter q.1 (xs.map Val.int) := by
          rw [hfun, maskFilter_map]
        have hv2n : vv₁.lookup n = (vvInsert vvm n
            (Val.list (acc ++ (maskFilter q.1 xs).map fun o => Val.int (e + o - e)))).lookup n :=
          varLoop_lookup_preserve _ _ n vs₂ _ vv₁ hL3
            (fun p hp => Or.inl (hvs₂ p hp))
        have hv2e : vv₁.lookup "epoch" = (vvInsert vvm n
            (Val.list (acc ++ (maskFilter q.1 xs).map fun o => Val.int (e + o - e)))).lookup "epoch" :=
          varLoop_lookup_preserve _ _ "epoch" vs₂ _ vv₁ hL3
            (fun p hp => hepskip p (hmemv2 p hp))
        have hv1n : vvGet vv₁ n =
            Val.list (acc ++ maskFilter q.1 (xs.map Val.int)) := by
          rw [vvGet, hv2n, lookup_vvInsert_self]
          rw [Option.getD_some, hnew]
        have hv1e : vvGet vv₁ "epoch" = Val.int e := by
          rw [vvGet, hv2e, lookup_vvInsert_ne vvm n "epoch" _ hnep, ← vvGet]
          rw [vvGet_congr vvm vv "epoch" hm2]
          exact hep
        obtain ⟨ha, hb⟩ := ih vv₁ vv' (acc ++ maskFilter q.1 (xs.map Val.int))
          hrest hrecTail hv1e hv1n
        refine ⟨?_, hb⟩
        rw [ha, plainConcat_cons_active q rest n hma, hlook]
        simp only [Option.some_bind, hvals, Val.asListQ, List.append_assoc]
    · rw [Bool.not_eq_true] at hma
      rw [timeRecStep_skip vv q hma, Except.ok.injEq] at hstep
      subst hstep
      obtain ⟨ha, hb⟩ := ih vv vv' acc hrest hrecTail hep hn
      refine ⟨?_, hb⟩
      rw [ha, plainConcat_cons_skip q rest n hma]

theorem firstNonTime_lookup_incl :
    ∀ (vars : List (String × VariableE)) (k : String) (v : VariableE),
      vars.lookup k = some v → nonTimeVar v = true →
      (vars.filterMap fun p =>
        if nonTimeVar p.2 then some (p.1, p.2.values) else none).lookup k =
        some v.values := by
  intro vars
  induction vars with
  | nil => intro k v h _; cases h
  | cons p vars ih =>
    intro k v hl hnt
    rcases p with ⟨m, w⟩
    rw [List.filterMap_cons]
    cases hb : (k == m) with
    | true =>
      simp only [List.lookup, hb] at hl
      rw [Option.some_inj] at hl
      subst hl
      rw [if_pos hnt]
      simp only [List.lookup, hb]
    | false =>
      simp only [List.lookup, hb] at hl
      by_cases hw : nonTimeVar w = true
      · rw [if_pos hw]
        simp only [List.lookup, hb]
        exact ih k v hl hnt
      · rw [if_neg hw]
        exact ih k v hl hnt

theorem firstNonTime_lookup_excl :
    ∀ (vars : List (String × VariableE)) (k : String),
      (∀ q ∈ vars, q.1 = k → nonTimeVar q.2 = false) →
      (vars.filterMap fun p =>
        if nonTimeVar p.2 then some (p.1, p.2.values) else none).lookup k = none := by
  intro vars
  induction vars with
  | nil => intro k _; rfl
  | cons p vars ih =>
    intro k h
    rcases p with ⟨m, w⟩
    rw [List.filterMap_cons]
    have htail := ih k fun q hq => h q (List.mem_cons_of_mem _ hq)
    by_cases hw : nonTimeVar w = true
    · rw [if_pos hw]
      cases hb : (k == m) with
      | true =>
        have hm : m = k := (beq_iff_eq.mp hb).symm
        have hfalse := h (m, w) (List.mem_cons_self _ _) hm
        rw [hfalse] at hw
        cases hw
      | false =>
        simp only [List.lookup, hb]
        exact htail
    · rw [if_neg hw]
      exact htail

theorem getMasks_length (target : Int) :
    ∀ (content : List InstrumentData) (masks : List (List Bool)),
      IndicesByDate.getMasks target content = some masks →
      masks.length = content.length := by
  intro content
  induction content with
  | nil =>
    intro masks h
    rw [IndicesByDate.getMasks, Option.some_inj] at h
    subst h
    rfl
  | cons data rest ih =>
    intro masks h
    rw [IndicesByDate.getMasks] at h
    split at h
    · cases h
    · split at h
      · cases h
      · split at h
        · cases h
        · split at h
          · cases h
          · rename_i ms hms
            rw [Option.some_inj] at h
            subst h
            rw [List.length_cons, List.length_cons, ih ms hms]

theorem firstMasked_some (masks : List (List Bool)) (content : List InstrumentData)
    (hlen : masks.length = content.length)
    (hany : masks.any (fun m => m.any id) = true) :
    ∃ m0 rec0, firstMasked masks content = some (m0, rec0) ∧ rec0 ∈ content
      ∧ m0.any id = true := by
  obtain ⟨m, hm, hpm⟩ := List.any_eq_true.mp hany
  obtain ⟨i, hi⟩ := List.mem_iff_getElem?.mp hm
  have hib : i < masks.length := (List.getElem?_eq_some_iff.mp hi).1
  have hic : i < content.length := by omega
  have hz : (masks.zip content)[i]? = some (m, content[i]) :=
    List.getElem?_zip_eq_some.mpr ⟨hi, List.getElem?_eq_getElem hic⟩
  have hmem : (m, content[i]) ∈ masks.zip content := List.mem_iff_getElem?.mpr ⟨i, hz⟩
  have hs : ((masks.zip content).find? fun p => p.1.any id).isSome := by
    rw [List.find?_isSome]
    exact ⟨(m, content[i]), hmem, hpm⟩
  obtain ⟨q, hq⟩ := Option.isSome_iff_exists.mp hs
  rcases q with ⟨a, b⟩
  have hqP := List.find?_some hq
  have hqmem := List.mem_of_find?_eq_some hq
  exact ⟨a, b, by rw [firstMasked, hq], (List.of_mem_zip hqmem).2, hqP⟩

theorem buildVariables_keys (varDims : List (String × List DimensionE))
    (vv : List (String × Val)) :
    ∀ (vars : List (String × VariableE)) (out : List (String × VariableE)),
      buildVariables varDims vv vars = Except.ok out →
      out.map Prod.fst = vars.map Prod.fst := by
  intro vars
  induction vars with
  | nil =>
    intro out h
    rw [buildVariables, Except.ok.injEq] at h
    subst h
    rfl
  | cons p vars ih =>
    intro out h
    rw [buildVariables] at h
    split at h
    · cases h
    · rename_i ds hds
      cases hr : buildVariables varDims vv vars with
      | error e => rw [hr] at h; cases h
      | ok r =>
        rw [hr] at h
        simp only [bind, Except.bind, pure, Except.pure, Except.ok.injEq] at h
        subst h
        rw [List.map_cons, List.map_cons, ih r hr]

theorem buildVariables_lookup (varDims : List (String × List DimensionE))
    (vv : List (String × Val)) :
    ∀ (vars : List (String × VariableE)) (out : List (String × VariableE))
      (k : String) (vO : VariableE),
      buildVariables varDims vv vars = Except.ok out →
      out.lookup k = some vO →
      vO.values = vvGet vv k
      ∧ ∃ vL, vars.lookup k = some vL ∧ vO.dtype = vL.dtype
        ∧ vO.long_name = vL.long_name ∧ vO.scale = vL.scale ∧ vO.units = vL.units := by
  intro vars
  induction vars with
  | nil =>
    intro out k vO h hk
    rw [buildVariables, Except.ok.injEq] at h
    subst h
    cases hk
  | cons p vars ih =>
    intro out k vO h hk
    rw [buildVariables] at h
    split at h
    · cases h
    · rename_i ds hds
      cases hr : buildVariables varDims vv vars with
      | error e => rw [hr] at h; cases h
      | ok r =>
        rw [hr] at h
        simp only [bind, Except.bind, pure, Except.pure, Except.ok.injEq] at h
        subst h
        cases hb : (k == p.1) with
        | true =>
          have hk1 : k = p.1 := beq_iff_eq.mp hb
          subst hk1
          simp only [List.lookup, beq_self_eq_true, Option.some_inj] at hk
          subst hk
          refine ⟨rfl, p.2, ?_, rfl, rfl, rfl, rfl⟩
          simp [List.lookup]
        | false =>
          simp only [List.lookup, hb] at hk
          obtain ⟨hval, vL, hvL, hrest⟩ := ih r k vO hr hk
          refine ⟨hval, vL, ?_, hrest⟩
          simp only [List.lookup, hb]
          exact hvL

theorem buildDataDims_keys (vv : List (String × Val)) :
    ∀ (dims : List (String × DimensionE)) (out : List (String × DimensionE)),
      buildDataDims vv dims = Except.ok out →
      out.map Prod.fst = (dims.map Prod.fst).filter
        (fun k => k == "time" || k == "level" || k == "angle") := by
  intro dims
  induction dims with
  | nil =>
    intro out h
    rw [buildDataDims, Except.ok.injEq] at h
    subst h
    rfl
  | cons p dims ih =>
    intro out h
    rcases p with ⟨k, dE⟩
    rw [buildDataDims] at h
    by_cases h1 : k = "time"
    · subst h1
      rw [if_pos rfl] at h
      cases hv : valLen (vvGet vv "offset") with
      | error e => rw [hv] at h; cases h
      | ok sz =>
        rw [hv] at h
        cases hr : buildDataDims vv dims with
        | error e => rw [hr] at h; cases h
        | ok r =>
          rw [hr] at h
          simp only [bind, Except.bind, pure, Except.pure, Except.ok.injEq] at h
          subst h
          simp [ih r hr]
    · rw [if_neg h1] at h
      by_cases h2 : k = "level"
      · subst h2
        rw [if_pos rfl] at h
        cases hv : valLen (vvGet vv "range") with
        | error e => rw [hv] at h; cases h
        | ok sz =>
          rw [hv] at h
          cases hr : buildDataDims vv dims with
          | error e => rw [hr] at h; cases h
          | ok r =>
            rw [hr] at h
            simp only [bind, Except.bind, pure, Except.pure, Except.ok.injEq] at h
            subst h
            simp [ih r hr, h1]
      · rw [if_neg h2] at h
        by_cases h3 : k = "angle"
        · subst h3
          rw [if_pos rfl] at h
          cases hr : buildDataDims vv dims with
          | error e => rw [hr] at h; cases h
          | ok r =>
            rw [hr] at h
            simp only [bind, Except.bind, pure, Except.pure, Except.ok.injEq] at h
            subst h
            simp [ih r hr, h1, h2]
        · rw [if_neg h3] at h
          rw [List.map_cons, List.filter_cons,
            if_neg (by simp [h1, h2, h3])]
          exact ih out h

theorem lookup_none_of_keys {β : Type} :
    ∀ (l : List (String × β)) (k : String), (∀ p ∈ l, p.1 ≠ k) →
      l.lookup k = none := by
  intro l
  induction l with
  | nil => intro k _; rfl
  | cons p rest ih =>
    intro k h
    cases hb : (k == p.1) with
    | true =>
      exact absurd (beq_iff_eq.mp hb).symm (h p (List.mem_cons_self p rest))
    | false =>
      simp only [List.lookup, hb]
      exact ih k fun q hq => h q (List.mem_cons_of_mem p hq)

theorem geHalfB_iff_winMean (w : List (List Int)) (q : ℚ)
    (h : winMean w = some q) : geHalfB w = true ↔ (1 : ℚ)/2 ≤ q := by
  rw [winMean] at h
  split at h
  · cases h
  · rename_i hz
    rw [Option.some_inj] at h
    subst h
    have hn : 0 < (winSize w : ℚ) := by
      exact_mod_cast Nat.pos_of_ne_zero hz
    rw [geHalfB, Bool.and_eq_true, decide_eq_true_iff, decide_eq_true_iff,
      div_le_div_iff (by norm_num) hn]
    constructor
    · rintro ⟨-, hle⟩
      have hq : (winSize w : ℚ) ≤ 2 * ((winCells w).sum : ℚ) := by
        exact_mod_cast hle
      linarith
    · intro hle
      refine ⟨hz, ?_⟩
      have hq : (winSize w : ℚ) ≤ 2 * ((winCells w).sum : ℚ) := by linarith
      exact_mod_cast hq

/-- Decomposition of a successful `IndicesByDate.apply` run into the values
taken by each of its internal stages. -/
theorem apply_ok_decomp (target : Int) (content : List InstrumentData)
    (d : InstrumentData)
    (hok : IndicesByDate.apply target content = Except.ok (some d)) :
    ∃ masks vv last dataDims varDims newVars,
      IndicesByDate.getMasks target content = some masks
      ∧ masks.any (fun m => m.any id) = true
      ∧ timeLoop (masks.zip content) (firstNonTime masks content) = Except.ok vv
      ∧ content.getLast? = some last
      ∧ buildDataDims vv last.dimensions = Except.ok dataDims
      ∧ buildVarDims dataDims last.vars = Except.ok varDims
      ∧ buildVariables varDims vv last.vars = Except.ok newVars
      ∧ d = ⟨dataDims, newVars⟩ := by
  rw [IndicesByDate.apply] at hok
  split at hok
  · cases hok
  · rename_i masks hg
    split at hok
    · cases hok
    · rename_i hany
      split at hok
      · cases hok
      · rename_i vv ht
        split at hok
        · cases hok
        · rename_i last hl
          split at hok
          · cases hok
          · rename_i dataDims hbd
            split at hok
            · cases hok
            · rename_i varDims hvd
              split at hok
              · cases hok
              · rename_i newVars hbv
                rw [Except.ok.injEq, Option.some_inj] at hok
                rw [timeIndexed] at ht
                exact ⟨masks, vv, last, dataDims, varDims, newVars, hg,
                  Bool.eq_true_of_ne_false hany, ht, hl, hbd, hvd, hbv, hok.symm⟩

/-- C5: when every input record carries the same epoch `e`, the value
`IndicesByDate.apply` stores under a seconds-unit time-indexed variable
`n` equals the plain mask-compressed concatenation of the records'
original values over the target day's masks (`specConcat`): with
agreeing epochs the rebase `record_epoch + offset - first_epoch` is a
no-op. -/
theorem c5_rebase_noop (target : Int) (content : List InstrumentData)
    (n : String) (e : Int) (d : InstrumentData) (vOut : VariableE)
    (hnep : n ≠ "epoch")
    (hok : IndicesByDate.apply target content = Except.ok (some d))
    (heps : ∀ rec ∈ content,
      ∃ vE, rec.vars.lookup "epoch" = some vE ∧ vE.values = Val.int e ∧
        vE.dimensions = [])
    (hsec : ∀ rec ∈ content, ∀ v, rec.vars.lookup n = some v →
      (∃ d0 ds, v.dimensions = d0 :: ds ∧ d0.name = DimName.time)
      ∧ v.units = UnitsE.seconds
      ∧ ∃ xs : List Int, v.values = Val.list (xs.map Val.int))
    (hnd : ∀ rec ∈ content, (rec.vars.map Prod.fst).Nodup)
    (hd : d.vars.lookup n = some vOut) :
    vOut.values = Val.list (specConcat target content n) := by
  obtain ⟨masks, vv, last, dataDims, varDims, newVars, hg, hany, ht, hl, hbd, hvd,
    hbv, hdeq⟩ := apply_ok_decomp target content d hok
  subst hdeq
  have hdl : newVars.lookup n = some vOut := hd
  obtain ⟨hval, -⟩ := buildVariables_lookup varDims vv last.vars newVars n vOut hbv hdl
  rw [hval, specConcat]
  simp only [hg]
  have hlen := getMasks_length target content masks hg
  obtain ⟨m0, rec0, hfm, hrec0, hm0⟩ := firstMasked_some masks content hlen hany
  obtain ⟨vE, hvE, hvEval, hvEdim⟩ := heps rec0 hrec0
  have hntE : nonTimeVar vE = true := by rw [nonTimeVar, hvEdim]
  have hvv0ep : vvGet (firstNonTime masks content) "epoch" = Val.int e := by
    simp only [firstNonTime, hfm]
    rw [vvGet, firstNonTime_lookup_incl rec0.vars "epoch" vE hvE hntE,
      Option.getD_some, hvEval]
  have hvv0n : vvGet (firstNonTime masks content) n = Val.list [] := by
    simp only [firstNonTime, hfm]
    rw [vvGet]
    cases hln : rec0.vars.lookup n with
    | none =>
      rw [firstNonTime_lookup_excl rec0.vars n
        (fun q hq hqn => absurd hqn (lookup_none_keys rec0.vars n hln q hq))]
      rfl
    | some v =>
      obtain ⟨⟨d0, ds, hdim, hdn⟩, -, -⟩ := hsec rec0 hrec0 v hln
      have hex : ∀ q ∈ rec0.vars, q.1 = n → nonTimeVar q.2 = false := by
        intro q hq hqn
        rw [lookup_unique rec0.vars n v hln (hnd rec0 hrec0) q hq hqn]
        simp [nonTimeVar, hdim, hdn]
      rw [firstNonTime_lookup_excl rec0.vars n hex]
      rfl
  have hpairs : ∀ q ∈ masks.zip content,
      (∃ vE, q.2.vars.lookup "epoch" = some vE ∧ vE.values = Val.int e ∧
        vE.dimensions = [])
      ∧ (∀ v, q.2.vars.lookup n = some v →
          (∃ d0 ds, v.dimensions = d0 :: ds ∧ d0.name = DimName.time)
          ∧ v.units = UnitsE.seconds
          ∧ ∃ xs : List Int, v.values = Val.list (xs.map Val.int))
      ∧ (q.2.vars.map Prod.fst).Nodup := by
    intro q hq
    rcases q with ⟨qm, qr⟩
    have hqc : qr ∈ content := (List.of_mem_zip hq).2
    exact ⟨heps qr hqc, hsec qr hqc, hnd qr hqc⟩
  obtain ⟨hfin, -⟩ := timeLoop_seconds n e hnep (masks.zip content)
    (firstNonTime masks content) vv [] ht hpairs hvv0ep hvv0n
  rw [hfin, List.nil_append]

/-- Witness for C5: on the two records `c5RecA`, `c5RecB`, both with epoch
0, the day-0 record's `offset` values equal the plain concatenation
`[5, 7]` of the records' own offsets. -/
theorem c5_rebase_noop_witness :
    IndicesByDate.apply 0 [c5RecA, c5RecB] = Except.ok (some c5OutD)
    ∧ c5OutD.vars.lookup "offset" = some c5OutVar
    ∧ c5OutVar.values = Val.list (specConcat 0 [c5RecA, c5RecB] "offset")
    ∧ specConcat 0 [c5RecA, c5RecB] "offset" = [Val.int 5, Val.int 7] := by
  refine ⟨rfl, rfl, ?_, rfl⟩
  refine c5_rebase_noop 0 [c5RecA, c5RecB] "offset" 0 c5OutD c5OutVar
    (by decide) rfl ?_ ?_ ?_ rfl
  · intro rec hrec
    simp only [List.mem_cons, List.not_mem_nil, or_false] at hrec
    rcases hrec with h | h <;> subst h <;> exact ⟨_, rfl, rfl, rfl⟩
  · intro rec hrec v hv
    simp only [List.mem_cons, List.not_mem_nil, or_false] at hrec
    rcases hrec with h | h <;> subst h <;> injection hv with hv <;> subst hv
    · exact ⟨⟨_, _, rfl, rfl⟩, rfl, ⟨[5], rfl⟩⟩
    · exact ⟨⟨_, _, rfl, rfl⟩, rfl, ⟨[7], rfl⟩⟩
  · intro rec hrec
    simp only [List.mem_cons, List.not_mem_nil, or_false] at hrec
    rcases hrec with h | h <;> subst h <;> decide

/-- C10: the successful day record takes its variable-name set and every
variable's `dtype`, `long_name`, `scale` and `units` from the LAST input
record (the Python loop variable `data` outlives the loops); a variable
absent from the last record is absent from the output, and the
synthesized dimensions are keyed by the last record's dimension names
(every name other than `time`, `level` and `angle` dropped). -/
theorem c10_last_record_metadata (target : Int) (content : List InstrumentData)
    (d last : InstrumentData)
    (hok : IndicesByDate.apply target content = Except.ok (some d))
    (hlast : content.getLast? = some last) :
    d.vars.map Prod.fst = last.vars.map Prod.fst
    ∧ (∀ k vO, d.vars.lookup k = some vO →
        ∃ vL, last.vars.lookup k = some vL ∧ vO.dtype = vL.dtype
          ∧ vO.long_name = vL.long_name ∧ vO.scale = vL.scale
          ∧ vO.units = vL.units)
    ∧ (∀ k, last.vars.lookup k = none → d.vars.lookup k = none)
    ∧ d.dimensions.map Prod.fst = (last.dimensions.map Prod.fst).filter
        (fun k => k == "time" || k == "level" || k == "angle") := by
  obtain ⟨masks, vv, last', dataDims, varDims, newVars, hg, hany, ht, hl, hbd, hvd,
    hbv, hdeq⟩ := apply_ok_decomp target content d hok
  subst hdeq
  rw [hlast, Option.some_inj] at hl
  subst hl
  have hkeys : newVars.map Prod.fst = last.vars.map Prod.fst :=
    buildVariables_keys varDims vv last.vars newVars hbv
  refine ⟨hkeys, ?_, ?_, buildDataDims_keys vv last.dimensions dataDims hbd⟩
  · intro k vO hk
    obtain ⟨-, vL, hvL, hrest⟩ :=
      buildVariables_lookup varDims vv last.vars newVars k vO hbv hk
    exact ⟨vL, hvL, hrest⟩
  · intro k hnone
    apply lookup_none_of_keys
    intro p hp
    have hmem : p.1 ∈ last.vars.map Prod.fst := by
      rw [← hkeys]
      exact List.mem_map_of_mem Prod.fst hp
    obtain ⟨q, hq, hq1⟩ := List.mem_map.mp hmem
    intro hpk
    exact lookup_none_keys last.vars k hnone q hq (hq1.trans hpk)

/-- Witness for C10: merging `c10RecA` (which carries the extra variable
`foo` and supplies the only `True` mask entry) with the last record
`c10RecB` gives a day record whose variable names and dimension keys are
those of `c10RecB`; `foo` is dropped even though its record supplied the
data. -/
theorem c10_last_record_metadata_witness :
    IndicesByDate.apply 0 [c10RecA, c10RecB] = Except.ok (some c10OutD)
    ∧ [c10RecA, c10RecB].getLast? = some c10RecB
    ∧ c10OutD.vars.map Prod.fst = c10RecB.vars.map Prod.fst
    ∧ c10OutD.vars.map Prod.fst = ["epoch", "offset"]
    ∧ (c10RecA.vars.lookup "foo").isSome = true
    ∧ c10OutD.vars.lookup "foo" = none
    ∧ c10OutD.dimensions.map Prod.fst = ["time"] := by
  obtain ⟨h1, -, h3, -⟩ :=
    c10_last_record_metadata 0 [c10RecA, c10RecB] c10OutD c10RecB rfl rfl
  exact ⟨rfl, rfl, h1, rfl, rfl, h3 "foo" rfl, rfl⟩
